import Mathlib

/-! # Poedit source extraction: `src/extractors/extractor.cpp`

A shallow embedding of the file collector (`FindInDir`, `CollectAllFiles`), the
exclusion matcher (`PathToMatch`, `PathsToMatch`), the backend dispatch loop
(`ExtractWithAll`, `FilterFiles`) and the catalog merger (`ConcatCatalogs`),
followed by the properties proved about them.

Modelling conventions

* `wxString` is a list of characters; `operator<` on strings is the
  lexicographic order of the characters' code points, `+` is `++`,
  `StartsWith` is `List.isPrefixOf`.
* The file system is read through two observations, as the code does:
  `wxFileName::FileExists(path)` and the listing obtained from `wxDir`.  A
  listing is a finite tree (`Dir`): the files that `GetFirst/GetNext` yield under
  `wxDIR_FILES`, and the subdirectories yielded under `wxDIR_DIRS`, each with the
  listing that opening it gives.  The order of a listing is the enumeration
  order.
* Library functions of wxWidgets (`wxIsWild`, `wxMatchWild`, `wxString::Lower`)
  and the helpers of `gexecute.h` (`ExecuteGettext`, `QuoteCmdlineArg`) are
  parameters.
* Mutable reference arguments (`output`, `tmpdir`) are passed as explicit state.
  Next to each result the models record what the code did on the way: the
  directories handed to `wxDir`, the `Extract` calls, the commands executed, the
  `wxLogError` messages and the "no files found" traces of the collector (the
  other `wxLogTrace` lines, which only print counts, are left out).
* `int found` is a natural number.
* The passes of the dispatch loop are recorded by `ExtractWithAll.trace`, which has
  the control flow of `ExtractWithAll.loop`.
* `wxDir` yields neither `.` nor `..` (the flag `wxDIR_DOTDOT` is not passed); the
  type `Dir` does not enforce it, and the two properties that need it say so
  (`Dir.properNames`, or a condition on the first component).
* `wxASSERT_MSG` is a macro of wxWidgets whose effect depends on the build;
  `CollectAllFiles.checked` puts the assertion before the body of the function for
  each of the three cases (`Assertions`).
-/

namespace Poedit

/-! ## Strings and library parameters -/

/-- A `wxString`, as the list of its characters. -/
abbrev wxString := List Char

/-- A `FilesList` is `std::vector<wxString>`. -/
abbrev FilesList := List wxString

/-- The wxWidgets functions the code calls, and the platform switch `__WXMSW__`. -/
structure Wx where
  /-- `wxIsWild(pattern)` -/
  wxIsWild : wxString → Bool
  /-- `wxMatchWild(pattern, text)` -/
  wxMatchWild : wxString → wxString → Bool
  /-- `wxString::Lower()` -/
  Lower : wxString → wxString
  /-- whether `__WXMSW__` is defined -/
  WXMSW : Bool

/-- The helpers declared in `gexecute.h`. -/
structure Gettext where
  /-- `ExecuteGettext(cmd)`: runs the command, true on success -/
  ExecuteGettext : wxString → Bool
  /-- `QuoteCmdlineArg(s)` -/
  QuoteCmdlineArg : wxString → wxString

/-! ## Path matching -/

/-- The struct `PathToMatch`. -/
structure PathToMatch where
  path : wxString
  isWildcard : Bool

/-- `PathToMatch::MatchesFile`. -/
def PathToMatch.MatchesFile (wx : Wx) (p : PathToMatch) (fn : wxString) : Bool :=
  if p.isWildcard then
    wx.wxMatchWild p.path fn
  else
    fn == p.path || (p.path ++ "/".toList).isPrefixOf fn

/-- The class `PathsToMatch`. -/
structure PathsToMatch where
  paths : List PathToMatch

/-- The constructor `PathsToMatch(const wxArrayString& a)`: one entry per string, in
order, flagged by `wxIsWild`. -/
def PathsToMatch.ofArray (wx : Wx) : List wxString → PathsToMatch
  | a => ⟨a.map fun p => ⟨p, wx.wxIsWild p⟩⟩

/-- The loop of `PathsToMatch::MatchesFile`: returns true at the first entry that
matches. -/
def PathsToMatch.matchLoop (wx : Wx) (fn : wxString) : List PathToMatch → Bool
  | [] => false
  | p :: rest => if p.MatchesFile wx fn then true else matchLoop wx fn rest

/-- `PathsToMatch::MatchesFile`. -/
def PathsToMatch.MatchesFile (wx : Wx) (ps : PathsToMatch) (fn : wxString) : Bool :=
  PathsToMatch.matchLoop wx fn ps.paths

/-! ## The file system as seen through `wxDir` -/

mutual
/-- What `wxDir dir(dirname)` gives. -/
inductive Dir where
  /-- `dir.IsOpened()` is false -/
  | closed : Dir
  /-- the file names enumerated under `wxDIR_FILES` and the subdirectories enumerated
  under `wxDIR_DIRS`, in enumeration order -/
  | opened (files : List wxString) (dirs : Entries) : Dir
/-- The subdirectories of a listing: each name with what opening it gives. -/
inductive Entries where
  | nil : Entries
  | cons (filename : wxString) (sub : Dir) (rest : Entries) : Entries
end

/-- The two observations the collector makes of the file system. -/
structure FileSystem where
  /-- `wxFileName::FileExists(path)` -/
  FileExists : wxString → Bool
  /-- the listing `wxDir` gives for a search-path entry -/
  dir : wxString → Dir

/-- The state threaded through the collector: the `output` vector, the directory
names handed to `wxDir` so far, and the `wxLogTrace` messages. -/
structure Walk where
  output : FilesList
  opened : List wxString
  log : List wxString

/-- The path composed for an entry `filename` of directory `dirname`
(`(dirname == ".") ? filename : dirname + "/" + filename`). -/
def childPath (dirname filename : wxString) : wxString :=
  if dirname = ".".toList then filename else dirname ++ "/".toList ++ filename

/-- The first loop of `FindInDir` (over `wxDIR_FILES`). -/
def FindInDir.filesLoop (wx : Wx) (dirname : wxString) (excludedPaths : PathsToMatch) :
    List wxString → Nat → FilesList → Nat × FilesList
  | [], found, output => (found, output)
  | filename :: rest, found, output =>
    let f := childPath dirname filename
    if excludedPaths.MatchesFile wx f then
      filesLoop wx dirname excludedPaths rest found output
    else
      filesLoop wx dirname excludedPaths rest (found + 1) (output ++ [f])

mutual
/-- `FindInDir`: returns `found` and the updated state. -/
def FindInDir (wx : Wx) (dirname : wxString) (excludedPaths : PathsToMatch) :
    Dir → Walk → Nat × Walk
  | dir, w =>
    if dirname.isEmpty then
      (0, w)
    else
      let w := { w with opened := w.opened ++ [dirname] }
      match dir with
      | .closed => (0, w)
      | .opened files dirs =>
        let r := FindInDir.filesLoop wx dirname excludedPaths files 0 w.output
        FindInDir.dirsLoop wx dirname excludedPaths dirs r.1 { w with output := r.2 }
/-- The second loop of `FindInDir` (over `wxDIR_DIRS`). -/
def FindInDir.dirsLoop (wx : Wx) (dirname : wxString) (excludedPaths : PathsToMatch) :
    Entries → Nat → Walk → Nat × Walk
  | .nil, found, w => (found, w)
  | .cons filename sub rest, found, w =>
    let f := childPath dirname filename
    if excludedPaths.MatchesFile wx f then
      FindInDir.dirsLoop wx dirname excludedPaths rest found w
    else
      let r := FindInDir wx f excludedPaths sub w
      FindInDir.dirsLoop wx dirname excludedPaths rest (found + r.1) r.2
end

/-- Two listings of the same directory tree that differ only in enumeration order:
the relation generated by permuting the files of a directory, exchanging two
neighbouring subdirectories of a directory, and doing either inside a subdirectory
at any depth. -/
inductive Dir.Reordered : Dir → Dir → Prop
  | refl (d : Dir) : Dir.Reordered d d
  | trans {a b c : Dir} : Dir.Reordered a b → Dir.Reordered b c → Dir.Reordered a c
  | files {fs fs' : List wxString} (ds : Entries) :
      fs.Perm fs' → Dir.Reordered (.opened fs ds) (.opened fs' ds)
  | swap (fs : List wxString) (n m : wxString) (d e : Dir) (r : Entries) :
      Dir.Reordered (.opened fs (.cons n d (.cons m e r))) (.opened fs (.cons m e (.cons n d r)))
  | head (fs : List wxString) (n : wxString) {d d' : Dir} (r : Entries) :
      Dir.Reordered d d' → Dir.Reordered (.opened fs (.cons n d r)) (.opened fs (.cons n d' r))
  | tail (fs : List wxString) (n : wxString) (d : Dir) {r r' : Entries} :
      Dir.Reordered (.opened fs r) (.opened fs r') →
      Dir.Reordered (.opened fs (.cons n d r)) (.opened fs (.cons n d r'))

/-- The subdirectories of a listing as a list: each name with the listing below it. -/
def Entries.toList : Entries → List (wxString × Dir)
  | .nil => []
  | .cons filename sub rest => (filename, sub) :: rest.toList

/-- `d.HasFile cs f`: in the tree `d`, going down through the subdirectories named
`cs`, in this order, leads to a directory that lists the file named `f`. -/
inductive Dir.HasFile : Dir → List wxString → wxString → Prop
  | here {files : List wxString} {dirs : Entries} {f : wxString} :
      f ∈ files → Dir.HasFile (.opened files dirs) [] f
  | inside {files : List wxString} {dirs : Entries} {c : wxString} {sub : Dir}
      {cs : List wxString} {f : wxString} :
      (c, sub) ∈ dirs.toList → Dir.HasFile sub cs f →
      Dir.HasFile (.opened files dirs) (c :: cs) f

/-- The components `c1, ..., cn` written as `c1/.../cn`. -/
def slashJoin : List wxString → wxString
  | [] => []
  | [c] => c
  | c :: rest => c ++ "/".toList ++ slashJoin rest

/-- The path that names the entry reached from the search root `d` through the
components `c1, ..., cn`, the way the specification writes it: `c1/.../cn` when `d` is
`.`, and `d/c1/.../cn` otherwise. -/
def composedPath (d : wxString) (components : List wxString) : wxString :=
  if d = ".".toList then slashJoin components else d ++ "/".toList ++ slashJoin components

mutual
/-- No subdirectory of the tree is named `.`: under `wxDIR_DIRS` alone (without
`wxDIR_DOTDOT`) `wxDir` does not yield the entries `.` and `..`. -/
def Dir.noDot : Dir → Bool
  | .closed => true
  | .opened _ dirs => dirs.noDot
/-- No subdirectory of the list, at any depth, is named `.`. -/
def Entries.noDot : Entries → Bool
  | .nil => true
  | .cons filename sub rest => filename != ".".toList && sub.noDot && rest.noDot
end

mutual
/-- No subdirectory of the tree has the empty name, which is no file name. -/
def Dir.noEmptyName : Dir → Bool
  | .closed => true
  | .opened _ dirs => dirs.noEmptyName
/-- No subdirectory of the list, at any depth, has the empty name. -/
def Entries.noEmptyName : Entries → Bool
  | .nil => true
  | .cons filename sub rest => filename != [] && sub.noEmptyName && rest.noEmptyName
end

/-- The names of the subdirectories are names `wxDir` can yield: none is `.`, none is
empty. -/
def Dir.properNames (d : Dir) : Bool :=
  d.noDot && d.noEmptyName

mutual
/-- The files of the whole tree, each written as its components `c1, ..., cn, f`: the
subdirectories from the root of the tree down to the file, then the file name. Every
listing is taken whole, in its order: first the files of a directory, then its
subdirectories one after the other. -/
def Dir.allFiles : Dir → List (List wxString)
  | .closed => []
  | .opened files dirs => files.map (fun f => [f]) ++ dirs.allFiles
/-- The files below the subdirectories of a listing, by components. -/
def Entries.allFiles : Entries → List (List wxString)
  | .nil => []
  | .cons filename sub rest => sub.allFiles.map (fun cs => filename :: cs) ++ rest.allFiles
end

/-- `std::sort(output.begin(), output.end())`: the ascending rearrangement. -/
def std_sort (l : FilesList) : FilesList :=
  l.insertionSort (· ≤ ·)

/-- `SourceCodeSpec`, the fields the collector reads. -/
structure SourceCodeSpec where
  BasePath : wxString
  SearchPaths : List wxString
  ExcludedPaths : List wxString

/-- The message of `wxLogTrace("poedit.extractor", "no files found in '%s'", path)`. -/
def noFilesFound (path : wxString) : wxString :=
  "no files found in '".toList ++ path ++ "'".toList

/-- The body of the loop of `CollectAllFiles`, for one entry `path` of
`sources.SearchPaths`. -/
def CollectAllFiles.body (wx : Wx) (fs : FileSystem) (excludedPaths : PathsToMatch)
    (path : wxString) (w : Walk) : Walk :=
  if fs.FileExists path then
    if excludedPaths.MatchesFile wx path then
      { w with log := w.log ++ [noFilesFound path] }
    else
      { w with output := w.output ++ [path] }
  else
    let r := FindInDir wx path excludedPaths (fs.dir path) w
    if r.1 = 0 then
      { r.2 with log := r.2.log ++ [noFilesFound path] }
    else
      r.2

/-- The loop `for (auto& path: sources.SearchPaths)` of `CollectAllFiles`. -/
def CollectAllFiles.loop (wx : Wx) (fs : FileSystem) (excludedPaths : PathsToMatch) :
    List wxString → Walk → Walk
  | [], w => w
  | path :: rest, w =>
    loop wx fs excludedPaths rest (CollectAllFiles.body wx fs excludedPaths path w)

/-- The check `wxASSERT_MSG( sources.BasePath == ".", ... )` at the head of
`CollectAllFiles`: the message of the assertion when the condition is false. What a
false condition leads to is decided by the build, see `CollectAllFiles.checked`. -/
def CollectAllFiles.assertion (sources : SourceCodeSpec) : Option wxString :=
  if sources.BasePath = ".".toList then none
  else some "basepath handling not implemented yet".toList

/-- The state of `CollectAllFiles` when the loop is over, before the sort. -/
def CollectAllFiles.walk (wx : Wx) (fs : FileSystem) (sources : SourceCodeSpec) : Walk :=
  CollectAllFiles.loop wx fs (PathsToMatch.ofArray wx sources.ExcludedPaths)
    sources.SearchPaths ⟨[], [], []⟩

/-- `Extractor::CollectAllFiles`: the value returned by the statements that follow the
assertion. -/
def CollectAllFiles (wx : Wx) (fs : FileSystem) (sources : SourceCodeSpec) : FilesList :=
  std_sort (CollectAllFiles.walk wx fs sources).output

/-- What the macro `wxASSERT_MSG` of wxWidgets does with a false condition, which the
build decides: with `wxDEBUG_LEVEL` 0 the macro expands to nothing; otherwise the
assertion handler is called with the message, after which execution either goes on
with the next statement or is stopped by `wxTrap()`. The macro has no other exit: it
does not return from the enclosing function and does not throw. -/
inductive Assertions where
  | compiledOut : Assertions
  | resume : Assertions
  | trap : Assertions

/-- What a call of `CollectAllFiles` amounts to: the message handed to the assertion
handler, if any; the state of the walk when the loop is over and the list returned,
both absent when the program was stopped at the assertion. -/
structure Collected where
  raised : Option wxString
  walk : Option Walk
  ret : Option FilesList

/-- `Extractor::CollectAllFiles` as a whole: the assertion on `BasePath`, then the
statements that follow it. -/
def CollectAllFiles.checked (build : Assertions) (wx : Wx) (fs : FileSystem)
    (sources : SourceCodeSpec) : Collected :=
  match build, CollectAllFiles.assertion sources with
  | .trap, some msg => ⟨some msg, none, none⟩
  | .resume, some msg =>
    ⟨some msg, some (CollectAllFiles.walk wx fs sources), some (CollectAllFiles wx fs sources)⟩
  | _, _ =>
    ⟨none, some (CollectAllFiles.walk wx fs sources), some (CollectAllFiles wx fs sources)⟩

/-! ## Backends and the dispatch loop -/

/-- Modelled from the spec: the temporary workspace (`TempDirectory`, declared outside
this file), "createFileName(suggestedName) -> uniquePath".  The state is the list of
names issued so far in the run; `allocate` is the naming policy, which picks the next
name from the names issued and the suggested name. -/
structure TempDirectory where
  issued : List wxString
  allocate : List wxString → wxString → wxString

/-- Modelled from the spec: `TempDirectory::CreateFileName`, which returns the name
picked and records it as issued. -/
def TempDirectory.CreateFileName (tmpdir : TempDirectory) (suggested : wxString) :
    wxString × TempDirectory :=
  let name := tmpdir.allocate tmpdir.issued suggested
  (name, { tmpdir with issued := tmpdir.issued ++ [name] })

/-- Modelled from the spec: the guarantee of the workspace, "the returned path is
writable and not colliding with any other name issued in the same run": a name picked
is not empty and is none of the names issued before. -/
def TempDirectory.Unique (tmpdir : TempDirectory) : Prop :=
  ∀ suggested, tmpdir.allocate tmpdir.issued suggested ≠ [] ∧
    tmpdir.allocate tmpdir.issued suggested ∉ tmpdir.issued

/-- A backend: the virtual methods of `Extractor` that the dispatch loop calls. -/
structure Extractor where
  /-- `GetId()` -/
  GetId : wxString
  /-- `IsFileSupported(file)` -/
  IsFileSupported : wxString → Bool
  /-- `Extract(tmpdir, sourceSpec, files)`: the fragment path (empty for none) and the
  workspace after the call -/
  Extract : TempDirectory → SourceCodeSpec → FilesList → wxString × TempDirectory

/-- `Extractor::FilterFiles`. -/
def Extractor.FilterFiles (wx : Wx) (ex : Extractor) : FilesList → FilesList
  | [] => []
  | f :: files =>
    let f_ := if wx.WXMSW then wx.Lower f else f
    if ex.IsFileSupported f_ then f :: ex.FilterFiles wx files
    else ex.FilterFiles wx files

/-- The test `FilterFiles` applies to a file: `IsFileSupported` of the lowercased name
under `__WXMSW__`, of the name itself otherwise. -/
def Extractor.accepts (wx : Wx) (ex : Extractor) (f : wxString) : Bool :=
  ex.IsFileSupported (if wx.WXMSW then wx.Lower f else f)

/-- The inner step of `std::set_difference` with the head `a` of the first range
fixed: advances in the second range while its head is below `a`; `k` continues with
the tail `as` of the first range. -/
def set_difference.advance (a : wxString) (as : List wxString)
    (k : List wxString → List wxString) : List wxString → List wxString
  | [] => a :: as
  | b :: bs =>
    if a < b then a :: k (b :: bs)
    else if b < a then advance a as k bs
    else k bs

/-- `std::set_difference(first1, last1, first2, last2, out)`: the elements written. -/
def set_difference : List wxString → List wxString → List wxString
  | [], _ => []
  | a :: as, l2 => set_difference.advance a as (set_difference as) l2

/-! ## Merging the fragments -/

/-- What a call of `ConcatCatalogs` or `ExtractWithAll` leaves behind: the value
returned, the workspace, the commands handed to `ExecuteGettext` and the `wxLogError`
messages, both in order. -/
structure Merged where
  ret : wxString
  tmpdir : TempDirectory
  executed : List wxString
  errors : List wxString

/-- The loop `for (auto& f: files) list += wxString::Format(" %s", QuoteCmdlineArg(f))`. -/
def ConcatCatalogs.listLoop (gt : Gettext) : List wxString → wxString → wxString
  | [], list => list
  | f :: files, list => listLoop gt files (list ++ (" ".toList ++ gt.QuoteCmdlineArg f))

/-- The command `wxString::Format("msgcat --force-po -o %s %s", QuoteCmdlineArg(outfile), list)`. -/
def ConcatCatalogs.cmd (gt : Gettext) (outfile : wxString) (files : List wxString) : wxString :=
  "msgcat --force-po -o ".toList ++ gt.QuoteCmdlineArg outfile ++ " ".toList ++
    ConcatCatalogs.listLoop gt files []

/-- `Extractor::ConcatCatalogs`. -/
def ConcatCatalogs (gt : Gettext) (tmpdir : TempDirectory) (files : List wxString) : Merged :=
  if files.isEmpty then
    ⟨[], tmpdir, [], []⟩
  else if files.length = 1 then
    ⟨files.headD [], tmpdir, [], []⟩
  else
    let alloc := tmpdir.CreateFileName "concatenated.pot".toList
    let outfile := alloc.1
    let cmd := ConcatCatalogs.cmd gt outfile files
    let succ := gt.ExecuteGettext cmd
    if !succ then
      ⟨[], alloc.2, [cmd],
        ["Failed command: ".toList ++ cmd, "Failed to merge gettext catalogs.".toList]⟩
    else
      ⟨outfile, alloc.2, [cmd], []⟩

/-- The variables of the loop of `ExtractWithAll`: the remaining `files`, `subPots`, the
workspace, and the `Extract` calls made so far (backend id and the list handed over). -/
structure Dispatch where
  files : FilesList
  subPots : List wxString
  tmpdir : TempDirectory
  calls : List (wxString × FilesList)

/-- The loop `for (auto ex: CreateAllExtractors())` of `ExtractWithAll`. -/
def ExtractWithAll.loop (wx : Wx) (sourceSpec : SourceCodeSpec) :
    List Extractor → Dispatch → Dispatch
  | [], st => st
  | ex :: rest, st =>
    let ex_files := ex.FilterFiles wx st.files
    if ex_files.isEmpty then
      loop wx sourceSpec rest st
    else
      let r := ex.Extract st.tmpdir sourceSpec ex_files
      let subPot := r.1
      let subPots := if !subPot.isEmpty then st.subPots ++ [subPot] else st.subPots
      let calls := st.calls ++ [(ex.GetId, ex_files)]
      if st.files.length > ex_files.length then
        loop wx sourceSpec rest ⟨set_difference st.files ex_files, subPots, r.2, calls⟩
      else
        ⟨[], subPots, r.2, calls⟩

/-- The state of `ExtractWithAll` when its loop is over; `extractors` is the list that
`CreateAllExtractors()` returns. -/
def ExtractWithAll.dispatch (wx : Wx) (extractors : List Extractor) (tmpdir : TempDirectory)
    (sourceSpec : SourceCodeSpec) (files_ : FilesList) : Dispatch :=
  ExtractWithAll.loop wx sourceSpec extractors ⟨files_, [], tmpdir, []⟩

/-- `Extractor::ExtractWithAll`. -/
def ExtractWithAll (wx : Wx) (gt : Gettext) (extractors : List Extractor)
    (tmpdir : TempDirectory) (sourceSpec : SourceCodeSpec) (files_ : FilesList) : Merged :=
  let st := ExtractWithAll.dispatch wx extractors tmpdir sourceSpec files_
  if st.subPots.isEmpty then
    ⟨[], st.tmpdir, [], []⟩
  else if st.subPots.length = 1 then
    ⟨st.subPots.headD [], st.tmpdir, [], []⟩
  else
    ConcatCatalogs gt st.tmpdir st.subPots

/-- The files accounted for by a state of the dispatch loop: those handed to `Extract`
so far, call after call, followed by the remaining ones. -/
def Dispatch.accounted (st : Dispatch) : FilesList :=
  (st.calls.map Prod.snd).flatten ++ st.files

/-- One pass through the body of the loop of `ExtractWithAll`: the backend visited
(`ex->GetId()`), the variables `files` and `tmpdir` when the pass starts, the list
`ex_files`, and the value `Extract` returned, `none` when `Extract` was not called. -/
structure Iteration where
  id : wxString
  files : FilesList
  tmpdir : TempDirectory
  ex_files : FilesList
  subPot : Option wxString

/-- The passes the loop of `ExtractWithAll` makes, in order: the same control flow as
`ExtractWithAll.loop`, recording each pass instead of returning the last state. -/
def ExtractWithAll.trace (wx : Wx) (sourceSpec : SourceCodeSpec) :
    List Extractor → Dispatch → List Iteration
  | [], _ => []
  | ex :: rest, st =>
    let ex_files := ex.FilterFiles wx st.files
    if ex_files.isEmpty then
      ⟨ex.GetId, st.files, st.tmpdir, ex_files, none⟩ :: trace wx sourceSpec rest st
    else
      let r := ex.Extract st.tmpdir sourceSpec ex_files
      let subPot := r.1
      let subPots := if !subPot.isEmpty then st.subPots ++ [subPot] else st.subPots
      let calls := st.calls ++ [(ex.GetId, ex_files)]
      if st.files.length > ex_files.length then
        ⟨ex.GetId, st.files, st.tmpdir, ex_files, some subPot⟩ ::
          trace wx sourceSpec rest ⟨set_difference st.files ex_files, subPots, r.2, calls⟩
      else
        [⟨ex.GetId, st.files, st.tmpdir, ex_files, some subPot⟩]

/-! ## Concrete inputs used in the examples -/

/-- A platform without wildcards in the patterns used and without `__WXMSW__`. -/
def Scenario.wx : Wx :=
  ⟨fun _ => false, fun _ _ => false, id, false⟩

/-- The files of a directory `src` holding `a.c`, `b.c` and `c.c`; the directory is
reached under the names `src` and `src/`. -/
def Scenario.srcTree : FileSystem :=
  ⟨fun p => p = "src/a.c".toList ∨ p = "src/b.c".toList ∨ p = "src/c.c".toList,
   fun p =>
    if p = "src".toList ∨ p = "src/".toList then
      .opened ["a.c".toList, "b.c".toList, "c.c".toList] .nil
    else .closed⟩

/-- The same directory, enumerated in another order. -/
def Scenario.srcTreeReordered : FileSystem :=
  ⟨fun p => p = "src/a.c".toList ∨ p = "src/b.c".toList ∨ p = "src/c.c".toList,
   fun p =>
    if p = "src".toList ∨ p = "src/".toList then
      .opened ["c.c".toList, "a.c".toList, "b.c".toList] .nil
    else .closed⟩

/-- A directory `build` with a file and a subdirectory, and nothing else. -/
def Scenario.buildTree : FileSystem :=
  ⟨fun _ => false,
   fun p =>
    if p = "build".toList then
      .opened ["x.o".toList] (.cons "sub".toList (.opened ["y.o".toList] .nil) .nil)
    else .closed⟩

/-- A workspace that has issued no name yet and names its files `tmp/` followed by one
underscore per name issued before and the suggested name. -/
def Scenario.tmpdir : TempDirectory :=
  ⟨[], fun issued suggested =>
    "tmp/".toList ++ List.replicate issued.length '_' ++ suggested⟩

/-- The same workspace after the names `tmp/c.pot` and `tmp/_py.pot` were issued. -/
def Scenario.tmpdirTwo : TempDirectory :=
  ⟨["tmp/c.pot".toList, "tmp/_py.pot".toList], Scenario.tmpdir.allocate⟩

/-- A merge tool that succeeds; arguments are quoted as they are. -/
def Scenario.gettextOk : Gettext :=
  ⟨fun _ => true, id⟩

/-- A merge tool that fails; arguments are quoted as they are. -/
def Scenario.gettextFail : Gettext :=
  ⟨fun _ => false, id⟩

/-- A backend that claims the files ending in `.c` and writes the fragment `c.pot`. -/
def Scenario.backendC : Extractor :=
  ⟨"c".toList, fun f => ".c".toList.isSuffixOf f,
   fun tmpdir _ _ => tmpdir.CreateFileName "c.pot".toList⟩

/-- A backend that claims the files ending in `.py` and writes the fragment `py.pot`. -/
def Scenario.backendPy : Extractor :=
  ⟨"py".toList, fun f => ".py".toList.isSuffixOf f,
   fun tmpdir _ _ => tmpdir.CreateFileName "py.pot".toList⟩

/-- A second backend for the files ending in `.c`, writing the fragment `c2.pot`. -/
def Scenario.backendC2 : Extractor :=
  ⟨"c2".toList, fun f => ".c".toList.isSuffixOf f,
   fun tmpdir _ _ => tmpdir.CreateFileName "c2.pot".toList⟩

/-- A backend that claims every file and writes no fragment. -/
def Scenario.backendAll : Extractor :=
  ⟨"all".toList, fun _ => true, fun tmpdir _ _ => ([], tmpdir)⟩

/-- A tree with the file `main.c`, the directory `lib` holding `util.c` and the
directory `core`, which holds `io.c`. -/
def Scenario.project : Dir :=
  .opened ["main.c".toList]
    (.cons "lib".toList
      (.opened ["util.c".toList] (.cons "core".toList (.opened ["io.c".toList] .nil) .nil))
      .nil)

/-! # Properties -/

/-! ## Auxiliary facts: `set_difference` and `FilterFiles` -/

theorem set_difference_nil_right (l : List wxString) : set_difference l [] = l := by
  cases l <;> simp [set_difference, set_difference.advance]

theorem set_difference_cons_cons (a b : wxString) (as bs : List wxString) :
    set_difference (a :: as) (b :: bs) =
      if a < b then a :: set_difference as (b :: bs)
      else if b < a then set_difference (a :: as) bs
      else set_difference as bs := by
  simp [set_difference, set_difference.advance]

theorem FilterFiles_eq_filter (wx : Wx) (ex : Extractor) (files : FilesList) :
    ex.FilterFiles wx files = files.filter (ex.accepts wx) := by
  induction files with
  | nil => simp [Extractor.FilterFiles]
  | cons f files ih =>
    by_cases h : ex.accepts wx f = true
    · have h' := h
      simp only [Extractor.accepts] at h'
      simp [Extractor.FilterFiles, h, h', ih]
    · have h' := h
      simp only [Extractor.accepts] at h'
      simp [Extractor.FilterFiles, h, h', ih]

/-- On a sorted range, removing by `set_difference` the elements a test selects leaves
the elements the test rejects. -/
theorem set_difference_filter (p : wxString → Bool) (l : List wxString)
    (hs : l.Sorted (· ≤ ·)) :
    set_difference l (l.filter p) = l.filter (fun x => !p x) := by
  induction l with
  | nil => simp [set_difference]
  | cons a as ih =>
    have hs' : as.Sorted (· ≤ ·) := hs.of_cons
    have hle : ∀ b ∈ as, a ≤ b := List.rel_of_sorted_cons hs
    by_cases hp : p a = true
    · simp only [List.filter_cons, hp, if_true, Bool.not_true, Bool.false_eq_true, if_false]
      rw [set_difference_cons_cons]
      simp [ih hs']
    · have hp' : p a = false := by simpa using hp
      simp only [List.filter_cons, hp', Bool.false_eq_true, if_false, Bool.not_false, if_true]
      cases hf : as.filter p with
      | nil =>
        rw [set_difference_nil_right]
        have := ih hs'
        rw [hf, set_difference_nil_right] at this
        rw [← this]
      | cons b bs =>
        have hb : b ∈ as.filter p := by rw [hf]; exact List.mem_cons_self _ _
        have hb' := List.mem_filter.mp hb
        have hab : a < b := by
          refine lt_of_le_of_ne (hle b hb'.1) ?_
          intro heq
          rw [heq] at hp'
          rw [hp'] at hb'
          exact Bool.false_ne_true hb'.2
        rw [set_difference_cons_cons, if_pos hab, ← hf, ih hs']

/-! ## Auxiliary facts: the directory walk -/

theorem filesLoop_frame (wx : Wx) (dirname : wxString) (ex : PathsToMatch) (files : List wxString) :
    ∀ (found : Nat) (output : FilesList),
      FindInDir.filesLoop wx dirname ex files found output =
        (found + ((files.map (childPath dirname)).filter (fun f => !ex.MatchesFile wx f)).length,
          output ++ (files.map (childPath dirname)).filter (fun f => !ex.MatchesFile wx f)) := by
  induction files with
  | nil => intro found output; simp [FindInDir.filesLoop]
  | cons filename rest ih =>
    intro found output
    rw [FindInDir.filesLoop]
    by_cases h : ex.MatchesFile wx (childPath dirname filename) = true
    · simp [h, ih]
    · simp [h, ih]; omega

theorem FindInDir_empty (wx : Wx) (ex : PathsToMatch) (d : Dir) (w : Walk) :
    FindInDir wx [] ex d w = (0, w) := by
  unfold FindInDir; simp

theorem FindInDir_closed (wx : Wx) (ex : PathsToMatch) (dirname : wxString) (w : Walk)
    (h : dirname ≠ []) :
    FindInDir wx dirname ex .closed w = (0, { w with opened := w.opened ++ [dirname] }) := by
  unfold FindInDir; simp [h]

theorem FindInDir_opened (wx : Wx) (ex : PathsToMatch) (dirname : wxString)
    (files : List wxString) (dirs : Entries) (w : Walk) (h : dirname ≠ []) :
    FindInDir wx dirname ex (.opened files dirs) w =
      FindInDir.dirsLoop wx dirname ex dirs
        (FindInDir.filesLoop wx dirname ex files 0 w.output).1
        ⟨(FindInDir.filesLoop wx dirname ex files 0 w.output).2, w.opened ++ [dirname], w.log⟩ := by
  rw [FindInDir]; simp [h]

theorem dirsLoop_cons_excluded (wx : Wx) (ex : PathsToMatch) (dirname filename : wxString)
    (sub : Dir) (rest : Entries) (found : Nat) (w : Walk)
    (h : ex.MatchesFile wx (childPath dirname filename) = true) :
    FindInDir.dirsLoop wx dirname ex (.cons filename sub rest) found w =
      FindInDir.dirsLoop wx dirname ex rest found w := by
  rw [FindInDir.dirsLoop]; simp [h]

theorem dirsLoop_cons_kept (wx : Wx) (ex : PathsToMatch) (dirname filename : wxString)
    (sub : Dir) (rest : Entries) (found : Nat) (w : Walk)
    (h : ex.MatchesFile wx (childPath dirname filename) = false) :
    FindInDir.dirsLoop wx dirname ex (.cons filename sub rest) found w =
      FindInDir.dirsLoop wx dirname ex rest
        (found + (FindInDir wx (childPath dirname filename) ex sub w).1)
        (FindInDir wx (childPath dirname filename) ex sub w).2 := by
  rw [FindInDir.dirsLoop]; simp [h]

mutual
theorem FindInDir_frame (wx : Wx) (ex : PathsToMatch) :
    ∀ (d : Dir) (dirname : wxString) (w : Walk),
      FindInDir wx dirname ex d w =
        ((FindInDir wx dirname ex d ⟨[], [], []⟩).1,
          ⟨w.output ++ (FindInDir wx dirname ex d ⟨[], [], []⟩).2.output,
           w.opened ++ (FindInDir wx dirname ex d ⟨[], [], []⟩).2.opened, w.log⟩)
  | .closed, dirname, w => by
    by_cases h : dirname = []
    · subst h; simp [FindInDir_empty]
    · simp [FindInDir_closed, h]
  | .opened files dirs, dirname, w => by
    by_cases h : dirname = []
    · subst h; simp [FindInDir_empty]
    · simp only [FindInDir_opened _ _ _ _ _ _ h, filesLoop_frame]
      rw [dirsLoop_frame wx ex dirs dirname _ _]
      conv => rhs; rw [dirsLoop_frame wx ex dirs dirname _ _]
      simp
theorem dirsLoop_frame (wx : Wx) (ex : PathsToMatch) :
    ∀ (ds : Entries) (dirname : wxString) (found : Nat) (w : Walk),
      FindInDir.dirsLoop wx dirname ex ds found w =
        (found + (FindInDir.dirsLoop wx dirname ex ds 0 ⟨[], [], []⟩).1,
          ⟨w.output ++ (FindInDir.dirsLoop wx dirname ex ds 0 ⟨[], [], []⟩).2.output,
           w.opened ++ (FindInDir.dirsLoop wx dirname ex ds 0 ⟨[], [], []⟩).2.opened, w.log⟩)
  | .nil, dirname, found, w => by
    simp [FindInDir.dirsLoop]
  | .cons filename sub rest, dirname, found, w => by
    by_cases h : ex.MatchesFile wx (childPath dirname filename) = true
    · simp only [dirsLoop_cons_excluded _ _ _ _ _ _ _ _ h]
      exact dirsLoop_frame wx ex rest dirname found w
    · have h' : ex.MatchesFile wx (childPath dirname filename) = false := by simpa using h
      simp only [dirsLoop_cons_kept _ _ _ _ _ _ _ _ h']
      rw [dirsLoop_frame wx ex rest dirname _ _, FindInDir_frame wx ex sub _ w]
      conv => rhs; rw [dirsLoop_frame wx ex rest dirname _ _]
      simp [Nat.add_assoc]
end

/-! ## Auxiliary facts: the dispatch loop -/

theorem loop_accounted (wx : Wx) (sourceSpec : SourceCodeSpec) (exs : List Extractor) :
    ∀ st : Dispatch, st.files.Sorted (· ≤ ·) →
      (ExtractWithAll.loop wx sourceSpec exs st).accounted.Perm st.accounted := by
  induction exs with
  | nil => intro st _; simp [ExtractWithAll.loop]
  | cons ex rest ih =>
    intro st hs
    rw [ExtractWithAll.loop]
    simp only [FilterFiles_eq_filter]
    split
    · exact ih st hs
    · split
      · refine (ih _ ?_).trans ?_
        · simp only [set_difference_filter _ _ hs]
          exact hs.filter _
        · simp only [Dispatch.accounted, set_difference_filter _ _ hs, List.map_append,
            List.flatten_append, List.map_cons, List.map_nil, List.flatten_cons,
            List.flatten_nil, List.append_nil, List.append_assoc]
          exact (List.filter_append_perm _ _).append_left _
      · rename_i hlen
        have heq : st.files.filter (ex.accepts wx) = st.files :=
          (List.filter_sublist _).eq_of_length_le (not_lt.mp hlen)
        simp [Dispatch.accounted, heq]

/-- C1: for a sorted input list and any list of backends, the lists handed to the
`Extract` calls of `ExtractWithAll`, one after the other, followed by the files left
unrecognized, are a rearrangement of the input: every input file occurs in them as
often as in the input, so once when the input has no repetition. -/
theorem ExtractWithAll_partition (wx : Wx) (extractors : List Extractor)
    (tmpdir : TempDirectory) (sourceSpec : SourceCodeSpec) (files_ : FilesList)
    (hs : files_.Sorted (· ≤ ·)) :
    let st := ExtractWithAll.dispatch wx extractors tmpdir sourceSpec files_
    ((st.calls.map Prod.snd).flatten ++ st.files).Perm files_ ∧
      (files_.Nodup → ((st.calls.map Prod.snd).flatten ++ st.files).Nodup) := by
  intro st
  have h := loop_accounted wx sourceSpec extractors ⟨files_, [], tmpdir, []⟩ hs
  simp only [Dispatch.accounted, List.map_nil, List.flatten_nil, List.nil_append] at h
  exact ⟨h, fun hn => h.nodup_iff.mpr hn⟩

/-- What one subdirectory entry adds, started from the empty state: nothing when its
composed path is excluded, the walk of the subdirectory otherwise. -/
theorem dirsLoop_cons_empty (wx : Wx) (ex : PathsToMatch) (dirname filename : wxString)
    (sub : Dir) (rest : Entries) :
    FindInDir.dirsLoop wx dirname ex (.cons filename sub rest) 0 ⟨[], [], []⟩ =
      if ex.MatchesFile wx (childPath dirname filename) = true then
        FindInDir.dirsLoop wx dirname ex rest 0 ⟨[], [], []⟩
      else
        ((FindInDir wx (childPath dirname filename) ex sub ⟨[], [], []⟩).1 +
            (FindInDir.dirsLoop wx dirname ex rest 0 ⟨[], [], []⟩).1,
          ⟨(FindInDir wx (childPath dirname filename) ex sub ⟨[], [], []⟩).2.output ++
              (FindInDir.dirsLoop wx dirname ex rest 0 ⟨[], [], []⟩).2.output,
            (FindInDir wx (childPath dirname filename) ex sub ⟨[], [], []⟩).2.opened ++
              (FindInDir.dirsLoop wx dirname ex rest 0 ⟨[], [], []⟩).2.opened, []⟩) := by
  by_cases h : ex.MatchesFile wx (childPath dirname filename) = true
  · rw [if_pos h, dirsLoop_cons_excluded _ _ _ _ _ _ _ _ h]
  · have h' : ex.MatchesFile wx (childPath dirname filename) = false := by simpa using h
    rw [if_neg h, dirsLoop_cons_kept _ _ _ _ _ _ _ _ h', dirsLoop_frame]
    rw [FindInDir_frame]
    simp

theorem FindInDir_opened_empty (wx : Wx) (ex : PathsToMatch) (dirname : wxString)
    (files : List wxString) (dirs : Entries) (h : dirname ≠ []) :
    FindInDir wx dirname ex (.opened files dirs) ⟨[], [], []⟩ =
      (((files.map (childPath dirname)).filter (fun f => !ex.MatchesFile wx f)).length +
          (FindInDir.dirsLoop wx dirname ex dirs 0 ⟨[], [], []⟩).1,
        ⟨(files.map (childPath dirname)).filter (fun f => !ex.MatchesFile wx f) ++
            (FindInDir.dirsLoop wx dirname ex dirs 0 ⟨[], [], []⟩).2.output,
          dirname :: (FindInDir.dirsLoop wx dirname ex dirs 0 ⟨[], [], []⟩).2.opened, []⟩) := by
  rw [FindInDir_opened _ _ _ _ _ _ h, dirsLoop_frame]
  simp [filesLoop_frame]

mutual
theorem FindInDir_output_kept (wx : Wx) (ex : PathsToMatch) :
    ∀ (d : Dir) (dirname : wxString),
      ∀ x ∈ (FindInDir wx dirname ex d ⟨[], [], []⟩).2.output, ex.MatchesFile wx x = false
  | .closed, dirname => by
    by_cases h : dirname = []
    · subst h; simp [FindInDir_empty]
    · simp [FindInDir_closed, h]
  | .opened files dirs, dirname => by
    by_cases h : dirname = []
    · subst h; simp [FindInDir_empty]
    · rw [FindInDir_opened_empty _ _ _ _ _ h]
      intro x hx
      rcases List.mem_append.mp hx with hx | hx
      · simpa using (List.mem_filter.mp hx).2
      · exact dirsLoop_output_kept wx ex dirs dirname x hx
theorem dirsLoop_output_kept (wx : Wx) (ex : PathsToMatch) :
    ∀ (ds : Entries) (dirname : wxString),
      ∀ x ∈ (FindInDir.dirsLoop wx dirname ex ds 0 ⟨[], [], []⟩).2.output,
        ex.MatchesFile wx x = false
  | .nil, dirname => by simp [FindInDir.dirsLoop]
  | .cons filename sub rest, dirname => by
    rw [dirsLoop_cons_empty]
    split
    · exact dirsLoop_output_kept wx ex rest dirname
    · intro x hx
      rcases List.mem_append.mp hx with hx | hx
      · exact FindInDir_output_kept wx ex sub _ x hx
      · exact dirsLoop_output_kept wx ex rest dirname x hx
end

mutual
theorem FindInDir_opened_kept (wx : Wx) (ex : PathsToMatch) :
    ∀ (d : Dir) (dirname : wxString),
      ∀ t ∈ (FindInDir wx dirname ex d ⟨[], [], []⟩).2.opened,
        t = dirname ∨ ex.MatchesFile wx t = false
  | .closed, dirname => by
    by_cases h : dirname = []
    · subst h; simp [FindInDir_empty]
    · simp [FindInDir_closed, h]
  | .opened files dirs, dirname => by
    by_cases h : dirname = []
    · subst h; simp [FindInDir_empty]
    · rw [FindInDir_opened_empty _ _ _ _ _ h]
      intro t ht
      rcases List.mem_cons.mp ht with ht | ht
      · exact Or.inl ht
      · exact Or.inr (dirsLoop_opened_kept wx ex dirs dirname t ht)
theorem dirsLoop_opened_kept (wx : Wx) (ex : PathsToMatch) :
    ∀ (ds : Entries) (dirname : wxString),
      ∀ t ∈ (FindInDir.dirsLoop wx dirname ex ds 0 ⟨[], [], []⟩).2.opened,
        ex.MatchesFile wx t = false
  | .nil, dirname => by simp [FindInDir.dirsLoop]
  | .cons filename sub rest, dirname => by
    rw [dirsLoop_cons_empty]
    split
    · exact dirsLoop_opened_kept wx ex rest dirname
    · rename_i hex
      intro t ht
      rcases List.mem_append.mp ht with ht | ht
      · rcases FindInDir_opened_kept wx ex sub _ t ht with h | h
        · rw [h]; simpa using hex
        · exact h
      · exact dirsLoop_opened_kept wx ex rest dirname t ht
end

theorem dirsLoop_cons_found (wx : Wx) (ex : PathsToMatch) (dirname filename : wxString)
    (sub : Dir) (rest : Entries) :
    (FindInDir.dirsLoop wx dirname ex (.cons filename sub rest) 0 ⟨[], [], []⟩).1 =
      (if ex.MatchesFile wx (childPath dirname filename) = true then 0
        else (FindInDir wx (childPath dirname filename) ex sub ⟨[], [], []⟩).1) +
      (FindInDir.dirsLoop wx dirname ex rest 0 ⟨[], [], []⟩).1 := by
  rw [dirsLoop_cons_empty]
  split <;> simp

theorem dirsLoop_cons_output (wx : Wx) (ex : PathsToMatch) (dirname filename : wxString)
    (sub : Dir) (rest : Entries) :
    (FindInDir.dirsLoop wx dirname ex (.cons filename sub rest) 0 ⟨[], [], []⟩).2.output =
      (if ex.MatchesFile wx (childPath dirname filename) = true then []
        else (FindInDir wx (childPath dirname filename) ex sub ⟨[], [], []⟩).2.output) ++
      (FindInDir.dirsLoop wx dirname ex rest 0 ⟨[], [], []⟩).2.output := by
  rw [dirsLoop_cons_empty]
  split <;> simp

theorem FindInDir_opened_found (wx : Wx) (ex : PathsToMatch) (dirname : wxString)
    (files : List wxString) (dirs : Entries) (h : dirname ≠ []) :
    (FindInDir wx dirname ex (.opened files dirs) ⟨[], [], []⟩).1 =
      ((files.map (childPath dirname)).filter (fun f => !ex.MatchesFile wx f)).length +
        (FindInDir.dirsLoop wx dirname ex dirs 0 ⟨[], [], []⟩).1 := by
  rw [FindInDir_opened_empty _ _ _ _ _ h]

theorem FindInDir_opened_output (wx : Wx) (ex : PathsToMatch) (dirname : wxString)
    (files : List wxString) (dirs : Entries) (h : dirname ≠ []) :
    (FindInDir wx dirname ex (.opened files dirs) ⟨[], [], []⟩).2.output =
      (files.map (childPath dirname)).filter (fun f => !ex.MatchesFile wx f) ++
        (FindInDir.dirsLoop wx dirname ex dirs 0 ⟨[], [], []⟩).2.output := by
  rw [FindInDir_opened_empty _ _ _ _ _ h]

/-- Reordering the listings changes neither the count `FindInDir` returns nor, up to
order, the paths it appends. -/
theorem FindInDir_reordered (wx : Wx) (ex : PathsToMatch) {d d' : Dir}
    (h : d.Reordered d') :
    ∀ dirname : wxString,
      (FindInDir wx dirname ex d ⟨[], [], []⟩).1 = (FindInDir wx dirname ex d' ⟨[], [], []⟩).1 ∧
      (FindInDir wx dirname ex d ⟨[], [], []⟩).2.output.Perm
        (FindInDir wx dirname ex d' ⟨[], [], []⟩).2.output := by
  induction h with
  | refl d => intro dirname; exact ⟨rfl, List.Perm.refl _⟩
  | trans _ _ ih1 ih2 =>
    intro dirname
    exact ⟨(ih1 dirname).1.trans (ih2 dirname).1, (ih1 dirname).2.trans (ih2 dirname).2⟩
  | files ds hp =>
    intro dirname
    by_cases hd : dirname = []
    · subst hd; simp [FindInDir_empty]
    · simp only [FindInDir_opened_found _ _ _ _ _ hd, FindInDir_opened_output _ _ _ _ _ hd]
      have hp' := (hp.map (childPath dirname)).filter (fun f => !ex.MatchesFile wx f)
      exact ⟨by rw [hp'.length_eq], hp'.append_right _⟩
  | swap fs n m d e r =>
    intro dirname
    by_cases hd : dirname = []
    · subst hd; simp [FindInDir_empty]
    · simp only [FindInDir_opened_found _ _ _ _ _ hd, FindInDir_opened_output _ _ _ _ _ hd,
        dirsLoop_cons_found, dirsLoop_cons_output]
      refine ⟨by omega, List.Perm.append_left _ ?_⟩
      rw [← List.append_assoc, ← List.append_assoc]
      exact List.perm_append_comm.append_right _
  | head fs n r _ ih =>
    intro dirname
    by_cases hd : dirname = []
    · subst hd; simp [FindInDir_empty]
    · simp only [FindInDir_opened_found _ _ _ _ _ hd, FindInDir_opened_output _ _ _ _ _ hd,
        dirsLoop_cons_found, dirsLoop_cons_output]
      have := ih (childPath dirname n)
      split
      · exact ⟨rfl, List.Perm.refl _⟩
      · exact ⟨by rw [this.1], List.Perm.append_left _ (this.2.append_right _)⟩
  | tail fs n d _ ih =>
    intro dirname
    by_cases hd : dirname = []
    · subst hd; simp [FindInDir_empty]
    · have := ih dirname
      simp only [FindInDir_opened_found _ _ _ _ _ hd, FindInDir_opened_output _ _ _ _ _ hd]
        at this
      have h1 := Nat.add_left_cancel this.1
      have h2 := (List.perm_append_left_iff _).mp this.2
      simp only [FindInDir_opened_found _ _ _ _ _ hd, FindInDir_opened_output _ _ _ _ _ hd,
        dirsLoop_cons_found, dirsLoop_cons_output]
      exact ⟨by rw [h1], List.Perm.append_left _ (List.Perm.append_left _ h2)⟩

/-! ## Auxiliary facts: matching -/

theorem PathToMatch_MatchesFile_plain (wx : Wx) (e fn : wxString) :
    (PathToMatch.mk e false).MatchesFile wx fn = true ↔ fn = e ∨ (e ++ "/".toList) <+: fn := by
  simp [PathToMatch.MatchesFile, List.isPrefixOf_iff_prefix]

theorem matchLoop_iff (wx : Wx) (fn : wxString) (l : List PathToMatch) :
    PathsToMatch.matchLoop wx fn l = true ↔ ∃ p ∈ l, p.MatchesFile wx fn = true := by
  induction l with
  | nil => simp [PathsToMatch.matchLoop]
  | cons p rest ih =>
    rw [PathsToMatch.matchLoop]
    by_cases h : p.MatchesFile wx fn = true
    · simp [h]
    · simp [h, ih]

theorem MatchesFile_ofArray_iff (wx : Wx) (list : List wxString) (fn : wxString) :
    (PathsToMatch.ofArray wx list).MatchesFile wx fn = true ↔
      ∃ e ∈ list, (PathToMatch.mk e (wx.wxIsWild e)).MatchesFile wx fn = true := by
  simp [PathsToMatch.MatchesFile, PathsToMatch.ofArray, matchLoop_iff]

/-- A path that the exclusion set does not match is neither equal to a non-wildcard
pattern nor below it. -/
theorem not_matched_plain (wx : Wx) (list : List wxString) (fn : wxString)
    (h : (PathsToMatch.ofArray wx list).MatchesFile wx fn = false)
    (e : wxString) (he : e ∈ list) (hw : wx.wxIsWild e = false) :
    fn ≠ e ∧ ¬ (e ++ "/".toList) <+: fn := by
  have hn : ¬ (PathToMatch.mk e (wx.wxIsWild e)).MatchesFile wx fn = true := by
    intro hm
    have := (MatchesFile_ofArray_iff wx list fn).mpr ⟨e, he, hm⟩
    rw [h] at this
    exact Bool.false_ne_true this
  rw [hw, PathToMatch_MatchesFile_plain] at hn
  exact ⟨fun h1 => hn (Or.inl h1), fun h2 => hn (Or.inr h2)⟩

/-! ## Auxiliary facts: the loop of `CollectAllFiles` -/

/-- One iteration appends to `output` and to the trace of opened directories: for a
file entry the path itself unless it is excluded, for any other entry what `FindInDir`
appends. -/
theorem body_frame (wx : Wx) (fs : FileSystem) (ex : PathsToMatch) (path : wxString)
    (w : Walk) :
    (CollectAllFiles.body wx fs ex path w).output =
        w.output ++
          (if fs.FileExists path = true then
            (if ex.MatchesFile wx path = true then [] else [path])
           else (FindInDir wx path ex (fs.dir path) ⟨[], [], []⟩).2.output) ∧
      (CollectAllFiles.body wx fs ex path w).opened =
        w.opened ++
          (if fs.FileExists path = true then []
           else (FindInDir wx path ex (fs.dir path) ⟨[], [], []⟩).2.opened) := by
  unfold CollectAllFiles.body
  by_cases hf : fs.FileExists path = true
  · by_cases hm : ex.MatchesFile wx path = true
    · simp [hf, hm]
    · simp [hf, hm]
  · simp only [hf, if_false, Bool.false_eq_true]
    rw [FindInDir_frame]
    split <;> simp

theorem collect_loop_output_kept (wx : Wx) (fs : FileSystem) (ex : PathsToMatch)
    (paths : List wxString) :
    ∀ w : Walk, (∀ x ∈ w.output, ex.MatchesFile wx x = false) →
      ∀ x ∈ (CollectAllFiles.loop wx fs ex paths w).output, ex.MatchesFile wx x = false := by
  induction paths with
  | nil => intro w hw; simpa [CollectAllFiles.loop] using hw
  | cons path rest ih =>
    intro w hw
    rw [CollectAllFiles.loop]
    refine ih _ ?_
    rw [(body_frame wx fs ex path w).1]
    intro x hx
    rcases List.mem_append.mp hx with hx | hx
    · exact hw x hx
    · split at hx
      · split at hx
        · simp at hx
        · rename_i hne
          rw [List.mem_singleton.mp hx]; simpa using hne
      · exact FindInDir_output_kept wx ex _ _ x hx

theorem collect_loop_opened (wx : Wx) (fs : FileSystem) (ex : PathsToMatch)
    (paths : List wxString) :
    ∀ w : Walk, ∀ t ∈ (CollectAllFiles.loop wx fs ex paths w).opened,
      t ∈ w.opened ∨ t ∈ paths ∨ ex.MatchesFile wx t = false := by
  induction paths with
  | nil => intro w t ht; exact Or.inl (by simpa [CollectAllFiles.loop] using ht)
  | cons path rest ih =>
    intro w t ht
    rw [CollectAllFiles.loop] at ht
    rcases ih _ t ht with h | h | h
    · rw [(body_frame wx fs ex path w).2] at h
      rcases List.mem_append.mp h with h | h
      · exact Or.inl h
      · split at h
        · simp at h
        · rcases FindInDir_opened_kept wx ex _ _ t h with h | h
          · exact Or.inr (Or.inl (by rw [h]; exact List.mem_cons_self _ _))
          · exact Or.inr (Or.inr h)
    · exact Or.inr (Or.inl (List.mem_cons_of_mem _ h))
    · exact Or.inr (Or.inr h)

theorem collect_loop_reordered (wx : Wx) (fs fs' : FileSystem) (ex : PathsToMatch)
    (hfile : ∀ p, fs.FileExists p = fs'.FileExists p)
    (hdir : ∀ p, (fs.dir p).Reordered (fs'.dir p)) (paths : List wxString) :
    ∀ w w' : Walk, w.output.Perm w'.output →
      (CollectAllFiles.loop wx fs ex paths w).output.Perm
        (CollectAllFiles.loop wx fs' ex paths w').output := by
  induction paths with
  | nil => intro w w' h; simpa [CollectAllFiles.loop] using h
  | cons path rest ih =>
    intro w w' h
    rw [CollectAllFiles.loop, CollectAllFiles.loop]
    refine ih _ _ ?_
    rw [(body_frame wx fs ex path w).1, (body_frame wx fs' ex path w').1, ← hfile path]
    refine h.append ?_
    split
    · exact List.Perm.refl _
    · exact (FindInDir_reordered wx ex (hdir path) path).2

/-! ## The collector -/

/-- C2: for fixed search paths and exclusions, `CollectAllFiles` returns the same list,
in the same order, on two file systems that hold the same files and directories and
differ only in the order in which the listings of the directories are enumerated. -/
theorem CollectAllFiles_enumeration_order (wx : Wx) (fs fs' : FileSystem)
    (sources : SourceCodeSpec)
    (hfile : ∀ p, fs.FileExists p = fs'.FileExists p)
    (hdir : ∀ p, (fs.dir p).Reordered (fs'.dir p)) :
    CollectAllFiles wx fs sources = CollectAllFiles wx fs' sources := by
  have hp := collect_loop_reordered wx fs fs' (PathsToMatch.ofArray wx sources.ExcludedPaths)
    hfile hdir sources.SearchPaths ⟨[], [], []⟩ ⟨[], [], []⟩ (List.Perm.refl _)
  unfold CollectAllFiles CollectAllFiles.walk std_sort
  refine List.eq_of_perm_of_sorted (r := (· ≤ ·)) ?_
    (List.sorted_insertionSort _ _) (List.sorted_insertionSort _ _)
  exact ((List.perm_insertionSort _ _).trans hp).trans (List.perm_insertionSort _ _).symm

/-- The directory `src` enumerated as `a.c, b.c, c.c` and as `c.c, a.c, b.c`. -/
theorem CollectAllFiles_enumeration_order_witness :
    (∀ p, Scenario.srcTree.FileExists p = Scenario.srcTreeReordered.FileExists p) ∧
    (∀ p, (Scenario.srcTree.dir p).Reordered (Scenario.srcTreeReordered.dir p)) ∧
    CollectAllFiles Scenario.wx Scenario.srcTree
        ⟨".".toList, ["src".toList], ["src/b.c".toList]⟩ =
      CollectAllFiles Scenario.wx Scenario.srcTreeReordered
        ⟨".".toList, ["src".toList], ["src/b.c".toList]⟩ := by
  have hfile : ∀ p, Scenario.srcTree.FileExists p = Scenario.srcTreeReordered.FileExists p :=
    fun _ => rfl
  have hdir : ∀ p, (Scenario.srcTree.dir p).Reordered (Scenario.srcTreeReordered.dir p) := by
    intro p
    simp only [Scenario.srcTree, Scenario.srcTreeReordered]
    split
    · refine Dir.Reordered.files _ ?_
      decide
    · exact Dir.Reordered.refl _
  exact ⟨hfile, hdir, CollectAllFiles_enumeration_order _ _ _ _ hfile hdir⟩
/-- What one search-path entry contributes to the list: the entry itself when it names
an existing file that is not excluded, nothing when that file is excluded, and what
`FindInDir` collects below it otherwise. -/
theorem collect_loop_output (wx : Wx) (fs : FileSystem) (ex : PathsToMatch)
    (paths : List wxString) :
    ∀ w : Walk, (CollectAllFiles.loop wx fs ex paths w).output =
      w.output ++ (paths.map fun path =>
        if fs.FileExists path = true then
          (if ex.MatchesFile wx path = true then [] else [path])
        else (FindInDir wx path ex (fs.dir path) ⟨[], [], []⟩).2.output).flatten := by
  induction paths with
  | nil => intro w; simp [CollectAllFiles.loop]
  | cons path rest ih =>
    intro w
    rw [CollectAllFiles.loop, ih, (body_frame wx fs ex path w).1]
    simp

/-- C3 (refuted as stated): in the scenario of the claim the result is not
`["src/a.c", "src/c.c"]`, and with the directory named `src` the file `src/a.c`,
reached through both entries, is returned twice. -/
theorem CollectAllFiles_scenario_not_deduplicated :
    CollectAllFiles Scenario.wx Scenario.srcTree
        ⟨".".toList, ["src/a.c".toList, "src/".toList], ["src/b.c".toList]⟩ ≠
      ["src/a.c".toList, "src/c.c".toList] ∧
    ¬ (CollectAllFiles Scenario.wx Scenario.srcTree
        ⟨".".toList, ["src/a.c".toList, "src".toList], ["src/b.c".toList]⟩).Nodup := by
  decide

/-- C3 (amended): `CollectAllFiles` does not deduplicate. The list returned is a
rearrangement of the concatenation of what the search-path entries contribute one by
one, so a path contributed by two entries is returned twice. With search paths
`["src/a.c", "src/"]` and exclusion `["src/b.c"]` the result is
`["src//a.c", "src//b.c", "src//c.c", "src/a.c"]`; with search paths
`["src/a.c", "src"]` it is `["src/a.c", "src/a.c", "src/c.c"]`. -/
theorem CollectAllFiles_keeps_every_occurrence (wx : Wx) (fs : FileSystem)
    (sources : SourceCodeSpec) :
    (CollectAllFiles wx fs sources).Perm
      (sources.SearchPaths.map fun path =>
        if fs.FileExists path = true then
          (if (PathsToMatch.ofArray wx sources.ExcludedPaths).MatchesFile wx path = true
            then [] else [path])
        else (FindInDir wx path (PathsToMatch.ofArray wx sources.ExcludedPaths)
          (fs.dir path) ⟨[], [], []⟩).2.output).flatten ∧
    CollectAllFiles Scenario.wx Scenario.srcTree
        ⟨".".toList, ["src/a.c".toList, "src/".toList], ["src/b.c".toList]⟩ =
      ["src//a.c".toList, "src//b.c".toList, "src//c.c".toList, "src/a.c".toList] ∧
    CollectAllFiles Scenario.wx Scenario.srcTree
        ⟨".".toList, ["src/a.c".toList, "src".toList], ["src/b.c".toList]⟩ =
      ["src/a.c".toList, "src/a.c".toList, "src/c.c".toList] := by
  refine ⟨?_, by decide, by decide⟩
  unfold CollectAllFiles CollectAllFiles.walk std_sort
  rw [collect_loop_output]
  simpa using List.perm_insertionSort _ _

/-- C4: the list returned by `CollectAllFiles` is in ascending lexicographic order. -/
theorem CollectAllFiles_sorted (wx : Wx) (fs : FileSystem) (sources : SourceCodeSpec) :
    (CollectAllFiles wx fs sources).Sorted (· ≤ ·) := by
  unfold CollectAllFiles std_sort
  exact List.sorted_insertionSort _ _

/-- C5: no path returned by `CollectAllFiles` is matched by the exclusion patterns,
however it was collected; in particular it is neither equal to a non-wildcard
exclusion pattern `e` nor does it start with `e + "/"`. -/
theorem CollectAllFiles_excluded (wx : Wx) (fs : FileSystem) (sources : SourceCodeSpec)
    (p : wxString) (hp : p ∈ CollectAllFiles wx fs sources) :
    (PathsToMatch.ofArray wx sources.ExcludedPaths).MatchesFile wx p = false ∧
    ∀ e ∈ sources.ExcludedPaths, wx.wxIsWild e = false →
      p ≠ e ∧ ¬ (e ++ "/".toList) <+: p := by
  have hmem : p ∈ (CollectAllFiles.walk wx fs sources).output := by
    unfold CollectAllFiles std_sort at hp
    exact (List.perm_insertionSort _ _).mem_iff.mp hp
  have hk := collect_loop_output_kept wx fs (PathsToMatch.ofArray wx sources.ExcludedPaths)
    sources.SearchPaths ⟨[], [], []⟩ (by simp) p hmem
  exact ⟨hk, fun e he hw => not_matched_plain wx _ p hk e he hw⟩

/-- The path `src/a.c` of the result, against the exclusion `src/b.c`. -/
theorem CollectAllFiles_excluded_witness :
    "src/a.c".toList ∈ CollectAllFiles Scenario.wx Scenario.srcTree
        ⟨".".toList, ["src/a.c".toList, "src".toList], ["src/b.c".toList]⟩ ∧
    ((PathsToMatch.ofArray Scenario.wx ["src/b.c".toList]).MatchesFile Scenario.wx
        "src/a.c".toList = false ∧
      ∀ e ∈ ["src/b.c".toList], Scenario.wx.wxIsWild e = false →
        "src/a.c".toList ≠ e ∧ ¬ (e ++ "/".toList) <+: "src/a.c".toList) :=
  ⟨by decide, CollectAllFiles_excluded Scenario.wx Scenario.srcTree
    ⟨".".toList, ["src/a.c".toList, "src".toList], ["src/b.c".toList]⟩ "src/a.c".toList
    (by decide)⟩

/-- C6 (refuted as stated): with search path `build` and the non-wildcard exclusion
`build`, the directory `build` is opened for enumeration. -/
theorem CollectAllFiles_opens_excluded_entry :
    Scenario.wx.wxIsWild "build".toList = false ∧
    (CollectAllFiles.walk Scenario.wx Scenario.buildTree
        ⟨".".toList, ["build".toList], ["build".toList]⟩).opened = ["build".toList] := by
  decide

/-- C6 (amended): every directory opened during `CollectAllFiles` is either an entry of
the search paths, which is opened without an exclusion test, or a directory met during
the walk that no exclusion pattern matches; such a directory is neither equal to a
non-wildcard exclusion pattern `e` nor does its path start with `e + "/"`. -/
theorem CollectAllFiles_opened (wx : Wx) (fs : FileSystem) (sources : SourceCodeSpec)
    (t : wxString) (ht : t ∈ (CollectAllFiles.walk wx fs sources).opened) :
    t ∈ sources.SearchPaths ∨
      ((PathsToMatch.ofArray wx sources.ExcludedPaths).MatchesFile wx t = false ∧
        ∀ e ∈ sources.ExcludedPaths, wx.wxIsWild e = false →
          t ≠ e ∧ ¬ (e ++ "/".toList) <+: t) := by
  rcases collect_loop_opened wx fs (PathsToMatch.ofArray wx sources.ExcludedPaths)
    sources.SearchPaths ⟨[], [], []⟩ t ht with h | h | h
  · simp at h
  · exact Or.inl h
  · exact Or.inr ⟨h, fun e he hw => not_matched_plain wx _ t h e he hw⟩

/-- The subdirectory `build/sub`, opened during the walk of the entry `build`. -/
theorem CollectAllFiles_opened_witness :
    "build/sub".toList ∈ (CollectAllFiles.walk Scenario.wx Scenario.buildTree
        ⟨".".toList, ["build".toList], ["build/x.o".toList]⟩).opened ∧
    ("build/sub".toList ∈ ["build".toList] ∨
      ((PathsToMatch.ofArray Scenario.wx ["build/x.o".toList]).MatchesFile Scenario.wx
          "build/sub".toList = false ∧
        ∀ e ∈ ["build/x.o".toList], Scenario.wx.wxIsWild e = false →
          "build/sub".toList ≠ e ∧ ¬ (e ++ "/".toList) <+: "build/sub".toList)) :=
  ⟨by decide, CollectAllFiles_opened Scenario.wx Scenario.buildTree
    ⟨".".toList, ["build".toList], ["build/x.o".toList]⟩ "build/sub".toList (by decide)⟩

/-! ## The exclusion matcher -/

/-- C7: when no string of the list is a wildcard pattern, `PathsToMatch(list)` matches
`fn` exactly when some string `e` of the list has `fn == e` or `fn` starting with
`e + "/"`; so the answer is the same for any reordering of the list, and the pattern
`src/b` does not match the path `src/b.c`. -/
theorem PathsToMatch_plain (wx : Wx) (list : List wxString) (fn : wxString)
    (hplain : ∀ e ∈ list, wx.wxIsWild e = false) :
    ((PathsToMatch.ofArray wx list).MatchesFile wx fn = true ↔
        ∃ e ∈ list, fn = e ∨ (e ++ "/".toList) <+: fn) ∧
    (∀ list' : List wxString, list.Perm list' →
      (PathsToMatch.ofArray wx list').MatchesFile wx fn =
        (PathsToMatch.ofArray wx list).MatchesFile wx fn) ∧
    (wx.wxIsWild "src/b".toList = false →
      (PathsToMatch.ofArray wx ["src/b".toList]).MatchesFile wx "src/b.c".toList = false) := by
  have key : ∀ (l : List wxString) (fn : wxString), (∀ e ∈ l, wx.wxIsWild e = false) →
      ((PathsToMatch.ofArray wx l).MatchesFile wx fn = true ↔
        ∃ e ∈ l, fn = e ∨ (e ++ "/".toList) <+: fn) := by
    intro l fn hl
    rw [MatchesFile_ofArray_iff]
    constructor
    · rintro ⟨e, he, hm⟩
      rw [hl e he, PathToMatch_MatchesFile_plain] at hm
      exact ⟨e, he, hm⟩
    · rintro ⟨e, he, hm⟩
      refine ⟨e, he, ?_⟩
      rw [hl e he, PathToMatch_MatchesFile_plain]
      exact hm
  refine ⟨key list fn hplain, ?_, ?_⟩
  · intro list' hperm
    have hplain' : ∀ e ∈ list', wx.wxIsWild e = false :=
      fun e he => hplain e (hperm.mem_iff.mpr he)
    rw [Bool.eq_iff_iff, key list' fn hplain', key list fn hplain]
    constructor
    · rintro ⟨e, he, hm⟩; exact ⟨e, hperm.mem_iff.mpr he, hm⟩
    · rintro ⟨e, he, hm⟩; exact ⟨e, hperm.mem_iff.mp he, hm⟩
  · intro hw
    have hk := key ["src/b".toList] "src/b.c".toList (by simpa using hw)
    rw [← Bool.not_eq_true, hk]
    decide

/-- The patterns `src/b` and `doc` against the path `doc/a.txt`. -/
theorem PathsToMatch_plain_witness :
    (∀ e ∈ ["src/b".toList, "doc".toList], Scenario.wx.wxIsWild e = false) ∧
    (((PathsToMatch.ofArray Scenario.wx ["src/b".toList, "doc".toList]).MatchesFile
          Scenario.wx "doc/a.txt".toList = true ↔
        ∃ e ∈ ["src/b".toList, "doc".toList],
          "doc/a.txt".toList = e ∨ (e ++ "/".toList) <+: "doc/a.txt".toList) ∧
      (∀ list' : List wxString, ["src/b".toList, "doc".toList].Perm list' →
        (PathsToMatch.ofArray Scenario.wx list').MatchesFile Scenario.wx "doc/a.txt".toList =
          (PathsToMatch.ofArray Scenario.wx ["src/b".toList, "doc".toList]).MatchesFile
            Scenario.wx "doc/a.txt".toList) ∧
      (Scenario.wx.wxIsWild "src/b".toList = false →
        (PathsToMatch.ofArray Scenario.wx ["src/b".toList]).MatchesFile Scenario.wx
          "src/b.c".toList = false)) :=
  ⟨by decide, PathsToMatch_plain Scenario.wx ["src/b".toList, "doc".toList]
    "doc/a.txt".toList (by decide)⟩

/-! ## The merger -/

theorem listLoop_eq (gt : Gettext) (files : List wxString) :
    ∀ list : wxString, ConcatCatalogs.listLoop gt files list =
      list ++ (files.map fun f => " ".toList ++ gt.QuoteCmdlineArg f).flatten := by
  induction files with
  | nil => intro list; simp [ConcatCatalogs.listLoop]
  | cons f rest ih =>
    intro list
    rw [ConcatCatalogs.listLoop, ih]
    simp

theorem ConcatCatalogs_many (gt : Gettext) (tmpdir : TempDirectory) (files : List wxString)
    (hlen : 2 ≤ files.length) :
    ConcatCatalogs gt tmpdir files =
      if gt.ExecuteGettext
          (ConcatCatalogs.cmd gt (tmpdir.CreateFileName "concatenated.pot".toList).1 files) = true
      then
        ⟨(tmpdir.CreateFileName "concatenated.pot".toList).1,
          (tmpdir.CreateFileName "concatenated.pot".toList).2,
          [ConcatCatalogs.cmd gt (tmpdir.CreateFileName "concatenated.pot".toList).1 files], []⟩
      else
        ⟨[], (tmpdir.CreateFileName "concatenated.pot".toList).2,
          [ConcatCatalogs.cmd gt (tmpdir.CreateFileName "concatenated.pot".toList).1 files],
          ["Failed command: ".toList ++
              ConcatCatalogs.cmd gt (tmpdir.CreateFileName "concatenated.pot".toList).1 files,
            "Failed to merge gettext catalogs.".toList]⟩ := by
  have h1 : files.isEmpty = false := by
    cases files with
    | nil => simp at hlen
    | cons _ _ => rfl
  have h2 : files.length ≠ 1 := by omega
  unfold ConcatCatalogs
  simp only [h1, h2, if_false, Bool.false_eq_true]
  cases gt.ExecuteGettext
      (ConcatCatalogs.cmd gt (tmpdir.CreateFileName "concatenated.pot".toList).1 files) <;> simp

/-- C8: `ConcatCatalogs` returns the empty string for no fragment and the fragment
itself for a single one; in both cases the workspace is left as it was (no name is
allocated), no command is executed and nothing is logged. -/
theorem ConcatCatalogs_identity (gt : Gettext) (tmpdir : TempDirectory) (f : wxString) :
    ((ConcatCatalogs gt tmpdir []).ret = [] ∧
      (ConcatCatalogs gt tmpdir []).tmpdir = tmpdir ∧
      (ConcatCatalogs gt tmpdir []).executed = [] ∧
      (ConcatCatalogs gt tmpdir []).errors = []) ∧
    ((ConcatCatalogs gt tmpdir [f]).ret = f ∧
      (ConcatCatalogs gt tmpdir [f]).tmpdir = tmpdir ∧
      (ConcatCatalogs gt tmpdir [f]).executed = [] ∧
      (ConcatCatalogs gt tmpdir [f]).errors = []) := by
  simp [ConcatCatalogs]

/-- C9: for two or more fragments, which are files of the workspace (names it
issued), `ConcatCatalogs` allocates one name `outfile` from the workspace, executes
exactly one command, `msgcat --force-po -o Q(outfile) ` followed by ` Q(f)` for every
fragment `f` in list order (`Q` is `QuoteCmdlineArg`), and returns `outfile` when the
command succeeds. The workspace keeping its guarantee, `outfile` is a new name: none of
those issued before, and distinct from each fragment. -/
theorem ConcatCatalogs_merge (gt : Gettext) (tmpdir : TempDirectory) (files : List wxString)
    (hlen : 2 ≤ files.length) (hu : tmpdir.Unique) (hown : ∀ f ∈ files, f ∈ tmpdir.issued) :
    let outfile := tmpdir.allocate tmpdir.issued "concatenated.pot".toList
    let cmd := "msgcat --force-po -o ".toList ++ gt.QuoteCmdlineArg outfile ++ " ".toList ++
      (files.map fun f => " ".toList ++ gt.QuoteCmdlineArg f).flatten
    (ConcatCatalogs gt tmpdir files).tmpdir.issued = tmpdir.issued ++ [outfile] ∧
    (ConcatCatalogs gt tmpdir files).executed = [cmd] ∧
    (gt.ExecuteGettext cmd = true →
      (ConcatCatalogs gt tmpdir files).ret = outfile ∧
      ∀ f ∈ files, (ConcatCatalogs gt tmpdir files).ret ≠ f) ∧
    outfile ∉ tmpdir.issued ∧
    (∀ f ∈ files, outfile ≠ f) := by
  intro outfile cmd
  have hcmd : ConcatCatalogs.cmd gt (tmpdir.CreateFileName "concatenated.pot".toList).1 files
      = cmd := by
    simp [ConcatCatalogs.cmd, listLoop_eq, TempDirectory.CreateFileName, cmd, outfile]
  have hnew : ∀ f ∈ files, outfile ≠ f := by
    intro f hf heq
    exact (hu _).2 (heq ▸ hown f hf)
  rw [ConcatCatalogs_many gt tmpdir files hlen, hcmd]
  refine ⟨?_, ?_, ?_, (hu _).2, hnew⟩
  · split <;> simp [TempDirectory.CreateFileName, outfile]
  · split <;> rfl
  · intro hs
    rw [if_pos hs]
    exact ⟨by simp [TempDirectory.CreateFileName, outfile],
      by simpa [TempDirectory.CreateFileName, outfile] using hnew⟩

theorem tmpdirTwo_unique : Scenario.tmpdirTwo.Unique := by
  intro suggested
  simp [Scenario.tmpdirTwo, Scenario.tmpdir, List.replicate]

/-- The merge of the fragments `tmp/c.pot` and `tmp/_py.pot` in the workspace that
issued them. -/
theorem ConcatCatalogs_merge_witness :
    2 ≤ ["tmp/c.pot".toList, "tmp/_py.pot".toList].length ∧
    Scenario.tmpdirTwo.Unique ∧
    (∀ f ∈ ["tmp/c.pot".toList, "tmp/_py.pot".toList], f ∈ Scenario.tmpdirTwo.issued) ∧
    (ConcatCatalogs Scenario.gettextOk Scenario.tmpdirTwo
        ["tmp/c.pot".toList, "tmp/_py.pot".toList]).ret = "tmp/__concatenated.pot".toList ∧
    (ConcatCatalogs Scenario.gettextOk Scenario.tmpdirTwo
        ["tmp/c.pot".toList, "tmp/_py.pot".toList]).executed =
      ["msgcat --force-po -o tmp/__concatenated.pot  tmp/c.pot tmp/_py.pot".toList] ∧
    (∀ f ∈ ["tmp/c.pot".toList, "tmp/_py.pot".toList],
      (ConcatCatalogs Scenario.gettextOk Scenario.tmpdirTwo
        ["tmp/c.pot".toList, "tmp/_py.pot".toList]).ret ≠ f) := by
  have h := ConcatCatalogs_merge Scenario.gettextOk Scenario.tmpdirTwo
    ["tmp/c.pot".toList, "tmp/_py.pot".toList] (by decide) tmpdirTwo_unique (by decide)
  exact ⟨by decide, tmpdirTwo_unique, by decide, (h.2.2.1 (by decide)).1, h.2.1,
    (h.2.2.1 (by decide)).2⟩

theorem loop_subPots_ne_nil (wx : Wx) (sourceSpec : SourceCodeSpec) (exs : List Extractor) :
    ∀ st : Dispatch, (∀ s ∈ st.subPots, s ≠ []) →
      ∀ s ∈ (ExtractWithAll.loop wx sourceSpec exs st).subPots, s ≠ [] := by
  induction exs with
  | nil => intro st h; simpa [ExtractWithAll.loop] using h
  | cons ex rest ih =>
    intro st h
    rw [ExtractWithAll.loop]
    have hnew : ∀ s ∈ (if (!(ex.Extract st.tmpdir sourceSpec
          (ex.FilterFiles wx st.files)).1.isEmpty) = true
        then st.subPots ++ [(ex.Extract st.tmpdir sourceSpec (ex.FilterFiles wx st.files)).1]
        else st.subPots), s ≠ [] := by
      intro s hs
      split at hs
      · rename_i hne
        rcases List.mem_append.mp hs with hs | hs
        · exact h s hs
        · rw [List.mem_singleton.mp hs]
          intro hnil
          rw [hnil] at hne
          simp at hne
      · exact h s hs
    split
    · exact ih st h
    · split
      · exact ih _ hnew
      · exact hnew

/-- C10: when the merge command fails, `ConcatCatalogs` on two or more fragments
returns the empty string and logs the failure; so `ExtractWithAll`, when its backends
left these fragments and the command fails, returns the empty string with the failure
logged: the value returned is none of the fragments, nor the path allocated for the
output by a workspace that keeps its guarantee. -/
theorem merge_failure (gt : Gettext) (t : TempDirectory) (files : List wxString)
    (hlen : 2 ≤ files.length)
    (hfail : gt.ExecuteGettext
      (ConcatCatalogs.cmd gt (t.CreateFileName "concatenated.pot".toList).1 files) = false) :
    let failure : List wxString :=
      ["Failed command: ".toList ++
          ConcatCatalogs.cmd gt (t.CreateFileName "concatenated.pot".toList).1 files,
        "Failed to merge gettext catalogs.".toList]
    ((ConcatCatalogs gt t files).ret = [] ∧ (ConcatCatalogs gt t files).errors = failure) ∧
    ∀ (wx : Wx) (extractors : List Extractor) (tmpdir : TempDirectory)
      (sourceSpec : SourceCodeSpec) (files_ : FilesList),
      (ExtractWithAll.dispatch wx extractors tmpdir sourceSpec files_).subPots = files →
      (ExtractWithAll.dispatch wx extractors tmpdir sourceSpec files_).tmpdir = t →
      (ExtractWithAll wx gt extractors tmpdir sourceSpec files_).ret = [] ∧
      (ExtractWithAll wx gt extractors tmpdir sourceSpec files_).errors = failure ∧
      (ExtractWithAll wx gt extractors tmpdir sourceSpec files_).ret ∉ files ∧
      (t.Unique → (ExtractWithAll wx gt extractors tmpdir sourceSpec files_).ret ≠
        (t.CreateFileName "concatenated.pot".toList).1) := by
  intro failure
  have hc : (ConcatCatalogs gt t files).ret = [] ∧ (ConcatCatalogs gt t files).errors = failure := by
    rw [ConcatCatalogs_many gt t files hlen, hfail]
    simp [failure]
  refine ⟨hc, ?_⟩
  intro wx extractors tmpdir sourceSpec files_ hsub htmp
  have h1 : files.isEmpty = false := by
    cases files with
    | nil => simp at hlen
    | cons _ _ => rfl
  have h2 : files.length ≠ 1 := by omega
  have hex : ExtractWithAll wx gt extractors tmpdir sourceSpec files_ =
      ConcatCatalogs gt t files := by
    unfold ExtractWithAll
    simp only [hsub, htmp, h1, h2, if_false, Bool.false_eq_true]
  have hne : ∀ s ∈ files, s ≠ [] := by
    rw [← hsub]
    exact loop_subPots_ne_nil wx sourceSpec extractors _ (by simp)
  rw [hex]
  refine ⟨hc.1, hc.2, ?_, ?_⟩
  · rw [hc.1]
    intro hmem
    exact hne [] hmem rfl
  · intro hu
    rw [hc.1]
    exact fun h => (hu _).1 (by simpa [TempDirectory.CreateFileName] using h.symm)

/-- Two backends leave the fragments `tmp/c.pot` and `tmp/_py.pot`, and the merge
command fails. -/
theorem merge_failure_witness :
    2 ≤ ["tmp/c.pot".toList, "tmp/_py.pot".toList].length ∧
    Scenario.gettextFail.ExecuteGettext
      (ConcatCatalogs.cmd Scenario.gettextFail
        (Scenario.tmpdirTwo.CreateFileName "concatenated.pot".toList).1
        ["tmp/c.pot".toList, "tmp/_py.pot".toList]) = false ∧
    (ExtractWithAll.dispatch Scenario.wx [Scenario.backendC, Scenario.backendPy] Scenario.tmpdir
        ⟨".".toList, [], []⟩ ["a.c".toList, "b.py".toList, "c.txt".toList]).subPots =
      ["tmp/c.pot".toList, "tmp/_py.pot".toList] ∧
    Scenario.tmpdirTwo.Unique ∧
    (ExtractWithAll Scenario.wx Scenario.gettextFail [Scenario.backendC, Scenario.backendPy]
        Scenario.tmpdir ⟨".".toList, [], []⟩
        ["a.c".toList, "b.py".toList, "c.txt".toList]).ret = [] ∧
    (ExtractWithAll Scenario.wx Scenario.gettextFail [Scenario.backendC, Scenario.backendPy]
        Scenario.tmpdir ⟨".".toList, [], []⟩
        ["a.c".toList, "b.py".toList, "c.txt".toList]).errors =
      ["Failed command: msgcat --force-po -o tmp/__concatenated.pot  tmp/c.pot tmp/_py.pot".toList,
        "Failed to merge gettext catalogs.".toList] ∧
    (ExtractWithAll Scenario.wx Scenario.gettextFail [Scenario.backendC, Scenario.backendPy]
        Scenario.tmpdir ⟨".".toList, [], []⟩
        ["a.c".toList, "b.py".toList, "c.txt".toList]).ret ≠
      (Scenario.tmpdirTwo.CreateFileName "concatenated.pot".toList).1 := by
  have h := merge_failure Scenario.gettextFail Scenario.tmpdirTwo
    ["tmp/c.pot".toList, "tmp/_py.pot".toList] (by decide) (by decide)
  have h' := h.2 Scenario.wx [Scenario.backendC, Scenario.backendPy] Scenario.tmpdir
    ⟨".".toList, [], []⟩ ["a.c".toList, "b.py".toList, "c.txt".toList] (by decide) rfl
  exact ⟨by decide, by decide, by decide, tmpdirTwo_unique, h'.1, h'.2.1,
    h'.2.2.2 tmpdirTwo_unique⟩

/-- The backends for `.c` and `.py` on the sorted input `a.c`, `b.py`, `c.txt`. -/
theorem ExtractWithAll_partition_witness :
    ["a.c".toList, "b.py".toList, "c.txt".toList].Sorted (· ≤ ·) ∧
    (((ExtractWithAll.dispatch Scenario.wx [Scenario.backendC, Scenario.backendPy]
          Scenario.tmpdir ⟨".".toList, [], []⟩
          ["a.c".toList, "b.py".toList, "c.txt".toList]).calls.map Prod.snd).flatten ++
      (ExtractWithAll.dispatch Scenario.wx [Scenario.backendC, Scenario.backendPy]
          Scenario.tmpdir ⟨".".toList, [], []⟩
          ["a.c".toList, "b.py".toList, "c.txt".toList]).files).Perm
      ["a.c".toList, "b.py".toList, "c.txt".toList] ∧
    (ExtractWithAll.dispatch Scenario.wx [Scenario.backendC, Scenario.backendPy]
        Scenario.tmpdir ⟨".".toList, [], []⟩
        ["a.c".toList, "b.py".toList, "c.txt".toList]).files = ["c.txt".toList] :=
  ⟨by decide,
    (ExtractWithAll_partition Scenario.wx [Scenario.backendC, Scenario.backendPy]
      Scenario.tmpdir ⟨".".toList, [], []⟩ ["a.c".toList, "b.py".toList, "c.txt".toList]
      (by decide)).1,
    by decide⟩

/-! ## The dispatch loop, pass by pass -/

theorem loop_cons_skip (wx : Wx) (sourceSpec : SourceCodeSpec) (ex : Extractor)
    (rest : List Extractor) (st : Dispatch) (h : ex.FilterFiles wx st.files = []) :
    ExtractWithAll.loop wx sourceSpec (ex :: rest) st = ExtractWithAll.loop wx sourceSpec rest st ∧
    ExtractWithAll.trace wx sourceSpec (ex :: rest) st =
      ⟨ex.GetId, st.files, st.tmpdir, [], none⟩ :: ExtractWithAll.trace wx sourceSpec rest st := by
  rw [ExtractWithAll.loop, ExtractWithAll.trace]
  simp [h]

/-- The fragment list after a call of `Extract` that returned `subPot`. -/
theorem loop_cons_part (wx : Wx) (sourceSpec : SourceCodeSpec) (ex : Extractor)
    (rest : List Extractor) (st : Dispatch) (h : ex.FilterFiles wx st.files ≠ [])
    (hlen : st.files.length > (ex.FilterFiles wx st.files).length) :
    ExtractWithAll.loop wx sourceSpec (ex :: rest) st =
      ExtractWithAll.loop wx sourceSpec rest
        ⟨set_difference st.files (ex.FilterFiles wx st.files),
          (if (!(ex.Extract st.tmpdir sourceSpec (ex.FilterFiles wx st.files)).1.isEmpty) = true
            then st.subPots ++ [(ex.Extract st.tmpdir sourceSpec (ex.FilterFiles wx st.files)).1]
            else st.subPots),
          (ex.Extract st.tmpdir sourceSpec (ex.FilterFiles wx st.files)).2,
          st.calls ++ [(ex.GetId, ex.FilterFiles wx st.files)]⟩ ∧
    ExtractWithAll.trace wx sourceSpec (ex :: rest) st =
      ⟨ex.GetId, st.files, st.tmpdir, ex.FilterFiles wx st.files,
          some (ex.Extract st.tmpdir sourceSpec (ex.FilterFiles wx st.files)).1⟩ ::
        ExtractWithAll.trace wx sourceSpec rest
          ⟨set_difference st.files (ex.FilterFiles wx st.files),
            (if (!(ex.Extract st.tmpdir sourceSpec (ex.FilterFiles wx st.files)).1.isEmpty) = true
              then st.subPots ++ [(ex.Extract st.tmpdir sourceSpec (ex.FilterFiles wx st.files)).1]
              else st.subPots),
            (ex.Extract st.tmpdir sourceSpec (ex.FilterFiles wx st.files)).2,
            st.calls ++ [(ex.GetId, ex.FilterFiles wx st.files)]⟩ := by
  rw [ExtractWithAll.loop, ExtractWithAll.trace]
  simp [h, hlen]

theorem loop_cons_all (wx : Wx) (sourceSpec : SourceCodeSpec) (ex : Extractor)
    (rest : List Extractor) (st : Dispatch) (h : ex.FilterFiles wx st.files ≠ [])
    (hlen : ¬ st.files.length > (ex.FilterFiles wx st.files).length) :
    ExtractWithAll.loop wx sourceSpec (ex :: rest) st =
      ⟨[],
        (if (!(ex.Extract st.tmpdir sourceSpec (ex.FilterFiles wx st.files)).1.isEmpty) = true
          then st.subPots ++ [(ex.Extract st.tmpdir sourceSpec (ex.FilterFiles wx st.files)).1]
          else st.subPots),
        (ex.Extract st.tmpdir sourceSpec (ex.FilterFiles wx st.files)).2,
        st.calls ++ [(ex.GetId, ex.FilterFiles wx st.files)]⟩ ∧
    ExtractWithAll.trace wx sourceSpec (ex :: rest) st =
      [⟨ex.GetId, st.files, st.tmpdir, ex.FilterFiles wx st.files,
          some (ex.Extract st.tmpdir sourceSpec (ex.FilterFiles wx st.files)).1⟩] := by
  rw [ExtractWithAll.loop, ExtractWithAll.trace]
  simp [h, hlen]

/-- The comparison `files.size() > ex_files.size()` fails exactly when `FilterFiles`
kept every file. -/
theorem size_test_iff (wx : Wx) (ex : Extractor) (files : FilesList) :
    ¬ files.length > (ex.FilterFiles wx files).length ↔ ex.FilterFiles wx files = files := by
  rw [FilterFiles_eq_filter]
  constructor
  · intro h
    exact (List.filter_sublist _).eq_of_length_le (not_lt.mp h)
  · intro h
    rw [h]
    exact lt_irrefl _

/-- C11: when a backend claims every file of a non-empty remaining list, the loop of
`ExtractWithAll` ends with this pass: `Extract` is called on the whole list, the
remaining list is cleared and the backends after it are not visited, whatever they
are. So when the first backend claims the whole non-empty input, `Extract` is called
once in the run. The test `files.size() > ex_files.size()` fails exactly when
`FilterFiles` kept every file. -/
theorem ExtractWithAll_early_exit (wx : Wx) (sourceSpec : SourceCodeSpec) (ex : Extractor)
    (rest : List Extractor) (st : Dispatch)
    (hne : st.files ≠ []) (hall : ex.FilterFiles wx st.files = st.files) :
    (ExtractWithAll.loop wx sourceSpec (ex :: rest) st).files = [] ∧
    (ExtractWithAll.loop wx sourceSpec (ex :: rest) st).calls =
      st.calls ++ [(ex.GetId, st.files)] ∧
    ExtractWithAll.trace wx sourceSpec (ex :: rest) st =
      [⟨ex.GetId, st.files, st.tmpdir, st.files,
        some (ex.Extract st.tmpdir sourceSpec st.files).1⟩] ∧
    ExtractWithAll.loop wx sourceSpec (ex :: rest) st =
      ExtractWithAll.loop wx sourceSpec [ex] st ∧
    (∀ tmpdir : TempDirectory,
      (ExtractWithAll.dispatch wx (ex :: rest) tmpdir sourceSpec st.files).calls =
        [(ex.GetId, st.files)]) ∧
    (∀ (ex' : Extractor) (files : FilesList),
      ¬ files.length > (ex'.FilterFiles wx files).length ↔ ex'.FilterFiles wx files = files) := by
  have hstep : ∀ (others : List Extractor) (st' : Dispatch), st'.files = st.files →
      ExtractWithAll.loop wx sourceSpec (ex :: others) st' =
        ⟨[],
          (if (!(ex.Extract st'.tmpdir sourceSpec st.files).1.isEmpty) = true
            then st'.subPots ++ [(ex.Extract st'.tmpdir sourceSpec st.files).1]
            else st'.subPots),
          (ex.Extract st'.tmpdir sourceSpec st.files).2,
          st'.calls ++ [(ex.GetId, st.files)]⟩ := by
    intro others st' hf
    have h1 : ex.FilterFiles wx st'.files ≠ [] := by rw [hf, hall]; exact hne
    have h2 : ¬ st'.files.length > (ex.FilterFiles wx st'.files).length := by
      rw [hf, hall]; exact lt_irrefl _
    rw [(loop_cons_all wx sourceSpec ex others st' h1 h2).1, hf, hall]
  have h1 : ex.FilterFiles wx st.files ≠ [] := by rw [hall]; exact hne
  have h2 : ¬ st.files.length > (ex.FilterFiles wx st.files).length := by
    rw [hall]; exact lt_irrefl _
  refine ⟨?_, ?_, ?_, ?_, ?_, size_test_iff wx⟩
  · rw [hstep rest st rfl]
  · rw [hstep rest st rfl]
  · rw [(loop_cons_all wx sourceSpec ex rest st h1 h2).2, hall]
  · rw [hstep rest st rfl, hstep [] st rfl]
  · intro tmpdir
    unfold ExtractWithAll.dispatch
    rw [hstep rest ⟨st.files, [], tmpdir, []⟩ rfl]
    rfl

/-- A backend that claims everything, ahead of the backends for `.c` and `.py`. -/
theorem ExtractWithAll_early_exit_witness :
    ["a.c".toList, "b.py".toList] ≠ [] ∧
    Scenario.backendAll.FilterFiles Scenario.wx ["a.c".toList, "b.py".toList] =
      ["a.c".toList, "b.py".toList] ∧
    (ExtractWithAll.dispatch Scenario.wx
        [Scenario.backendAll, Scenario.backendC, Scenario.backendPy] Scenario.tmpdir
        ⟨".".toList, [], []⟩ ["a.c".toList, "b.py".toList]).calls =
      [("all".toList, ["a.c".toList, "b.py".toList])] ∧
    (ExtractWithAll.dispatch Scenario.wx
        [Scenario.backendAll, Scenario.backendC, Scenario.backendPy] Scenario.tmpdir
        ⟨".".toList, [], []⟩ ["a.c".toList, "b.py".toList]).files = [] := by
  have h := ExtractWithAll_early_exit Scenario.wx ⟨".".toList, [], []⟩ Scenario.backendAll
    [Scenario.backendC, Scenario.backendPy]
    ⟨["a.c".toList, "b.py".toList], [], Scenario.tmpdir, []⟩ (by decide) (by decide)
  exact ⟨by decide, by decide, h.2.2.2.2.1 Scenario.tmpdir, h.1⟩

theorem trace_ids (wx : Wx) (sourceSpec : SourceCodeSpec) (exs : List Extractor) :
    ∀ st : Dispatch,
      ((ExtractWithAll.trace wx sourceSpec exs st).map fun it => it.id) <+:
        (exs.map fun ex => ex.GetId) := by
  induction exs with
  | nil => intro st; simp [ExtractWithAll.trace]
  | cons ex rest ih =>
    intro st
    by_cases h : ex.FilterFiles wx st.files = []
    · rw [(loop_cons_skip wx sourceSpec ex rest st h).2]
      simp only [List.map_cons]
      exact (List.prefix_cons_inj _).mpr (ih st)
    · by_cases hlen : st.files.length > (ex.FilterFiles wx st.files).length
      · rw [(loop_cons_part wx sourceSpec ex rest st h hlen).2]
        simp only [List.map_cons]
        exact (List.prefix_cons_inj _).mpr (ih _)
      · rw [(loop_cons_all wx sourceSpec ex rest st h hlen).2]
        simp only [List.map_cons, List.map_nil]
        exact (List.prefix_cons_inj _).mpr (List.nil_prefix)

theorem trace_passes (wx : Wx) (sourceSpec : SourceCodeSpec) (exs : List Extractor) :
    ∀ st : Dispatch, ∀ p ∈ List.zip exs (ExtractWithAll.trace wx sourceSpec exs st),
      p.2.id = p.1.GetId ∧ p.2.ex_files = p.1.FilterFiles wx p.2.files ∧
      (p.2.ex_files = [] → p.2.subPot = none) ∧
      (p.2.ex_files ≠ [] →
        p.2.subPot = some (p.1.Extract p.2.tmpdir sourceSpec p.2.ex_files).1) := by
  induction exs with
  | nil => intro st p hp; simp at hp
  | cons ex rest ih =>
    intro st p hp
    by_cases h : ex.FilterFiles wx st.files = []
    · rw [(loop_cons_skip wx sourceSpec ex rest st h).2, List.zip_cons_cons] at hp
      rcases List.mem_cons.mp hp with hp | hp
      · subst hp; simp [h]
      · exact ih st p hp
    · by_cases hlen : st.files.length > (ex.FilterFiles wx st.files).length
      · rw [(loop_cons_part wx sourceSpec ex rest st h hlen).2, List.zip_cons_cons] at hp
        rcases List.mem_cons.mp hp with hp | hp
        · subst hp; simp [h]
        · exact ih _ p hp
      · rw [(loop_cons_all wx sourceSpec ex rest st h hlen).2, List.zip_cons_cons] at hp
        rcases List.mem_cons.mp hp with hp | hp
        · subst hp; simp [h]
        · simp at hp

theorem trace_calls (wx : Wx) (sourceSpec : SourceCodeSpec) (exs : List Extractor) :
    ∀ st : Dispatch, (ExtractWithAll.loop wx sourceSpec exs st).calls =
      st.calls ++ (ExtractWithAll.trace wx sourceSpec exs st).filterMap
        fun it => it.subPot.map fun _ => (it.id, it.ex_files) := by
  induction exs with
  | nil => intro st; simp [ExtractWithAll.loop, ExtractWithAll.trace]
  | cons ex rest ih =>
    intro st
    by_cases h : ex.FilterFiles wx st.files = []
    · rw [(loop_cons_skip wx sourceSpec ex rest st h).1,
        (loop_cons_skip wx sourceSpec ex rest st h).2, ih]
      simp
    · by_cases hlen : st.files.length > (ex.FilterFiles wx st.files).length
      · rw [(loop_cons_part wx sourceSpec ex rest st h hlen).1,
          (loop_cons_part wx sourceSpec ex rest st h hlen).2, ih]
        simp
      · rw [(loop_cons_all wx sourceSpec ex rest st h hlen).1,
          (loop_cons_all wx sourceSpec ex rest st h hlen).2]
        simp

theorem trace_subPots (wx : Wx) (sourceSpec : SourceCodeSpec) (exs : List Extractor) :
    ∀ st : Dispatch, (ExtractWithAll.loop wx sourceSpec exs st).subPots =
      st.subPots ++ (ExtractWithAll.trace wx sourceSpec exs st).filterMap
        fun it => it.subPot.bind fun s => if s.isEmpty then none else some s := by
  induction exs with
  | nil => intro st; simp [ExtractWithAll.loop, ExtractWithAll.trace]
  | cons ex rest ih =>
    intro st
    by_cases h : ex.FilterFiles wx st.files = []
    · rw [(loop_cons_skip wx sourceSpec ex rest st h).1,
        (loop_cons_skip wx sourceSpec ex rest st h).2, ih]
      simp
    · by_cases hlen : st.files.length > (ex.FilterFiles wx st.files).length
      · rw [(loop_cons_part wx sourceSpec ex rest st h hlen).1,
          (loop_cons_part wx sourceSpec ex rest st h hlen).2, ih]
        by_cases hs : (ex.Extract st.tmpdir sourceSpec (ex.FilterFiles wx st.files)).1 = []
        · simp [hs, List.filterMap_cons]
        · simp [hs, List.filterMap_cons]
      · rw [(loop_cons_all wx sourceSpec ex rest st h hlen).1,
          (loop_cons_all wx sourceSpec ex rest st h hlen).2]
        by_cases hs : (ex.Extract st.tmpdir sourceSpec (ex.FilterFiles wx st.files)).1 = []
        · simp [hs, List.filterMap_cons]
        · simp [hs, List.filterMap_cons]

/-- C12: the passes of the loop of `ExtractWithAll` visit the backends one by one from
the head of the list, each at most once. In every pass `ex_files` is `FilterFiles` of
the list remaining at that moment; when it is empty `Extract` is not called and the
state goes unchanged to the next backend, otherwise `Extract` is called on exactly
`ex_files`. For the backends of `.c` and `.py` and the input `a.c`, `b.py`, `c.txt`:
the first is called on `a.c`, the second on `b.py`, `c.txt` is left over and the two
fragments are merged by one `msgcat` command. -/
theorem ExtractWithAll_passes (wx : Wx) (sourceSpec : SourceCodeSpec)
    (exs : List Extractor) (st : Dispatch) :
    (((ExtractWithAll.trace wx sourceSpec exs st).map fun it => it.id) <+:
        (exs.map fun ex => ex.GetId)) ∧
    (∀ p ∈ List.zip exs (ExtractWithAll.trace wx sourceSpec exs st),
      p.2.id = p.1.GetId ∧ p.2.ex_files = p.1.FilterFiles wx p.2.files ∧
      (p.2.ex_files = [] → p.2.subPot = none) ∧
      (p.2.ex_files ≠ [] →
        p.2.subPot = some (p.1.Extract p.2.tmpdir sourceSpec p.2.ex_files).1)) ∧
    ((ExtractWithAll.loop wx sourceSpec exs st).calls =
      st.calls ++ (ExtractWithAll.trace wx sourceSpec exs st).filterMap
        fun it => it.subPot.map fun _ => (it.id, it.ex_files)) ∧
    (∀ (ex : Extractor) (rest : List Extractor), ex.FilterFiles wx st.files = [] →
      ExtractWithAll.loop wx sourceSpec (ex :: rest) st =
        ExtractWithAll.loop wx sourceSpec rest st) ∧
    ((ExtractWithAll.dispatch Scenario.wx [Scenario.backendC, Scenario.backendPy]
          Scenario.tmpdir ⟨".".toList, [], []⟩
          ["a.c".toList, "b.py".toList, "c.txt".toList]).calls =
        [("c".toList, ["a.c".toList]), ("py".toList, ["b.py".toList])] ∧
      (ExtractWithAll.dispatch Scenario.wx [Scenario.backendC, Scenario.backendPy]
          Scenario.tmpdir ⟨".".toList, [], []⟩
          ["a.c".toList, "b.py".toList, "c.txt".toList]).files = ["c.txt".toList] ∧
      (ExtractWithAll Scenario.wx Scenario.gettextOk [Scenario.backendC, Scenario.backendPy]
          Scenario.tmpdir ⟨".".toList, [], []⟩
          ["a.c".toList, "b.py".toList, "c.txt".toList]).executed =
        ["msgcat --force-po -o tmp/__concatenated.pot  tmp/c.pot tmp/_py.pot".toList] ∧
      (ExtractWithAll Scenario.wx Scenario.gettextOk [Scenario.backendC, Scenario.backendPy]
          Scenario.tmpdir ⟨".".toList, [], []⟩
          ["a.c".toList, "b.py".toList, "c.txt".toList]).ret =
        "tmp/__concatenated.pot".toList) := by
  refine ⟨trace_ids wx sourceSpec exs st, trace_passes wx sourceSpec exs st,
    trace_calls wx sourceSpec exs st, ?_, by decide, by decide, by decide, by decide⟩
  intro ex rest h
  exact (loop_cons_skip wx sourceSpec ex rest st h).1

/-- C13: the value `ExtractWithAll` returns, with everything it leaves behind, is that
of `ConcatCatalogs` on the fragment list of the loop, and this list holds, in the order
of the passes, the non-empty values the `Extract` calls returned. It is the empty
string when the list is empty and the fragment itself when there is exactly one. -/
theorem ExtractWithAll_eq_ConcatCatalogs (wx : Wx) (gt : Gettext) (extractors : List Extractor)
    (tmpdir : TempDirectory) (sourceSpec : SourceCodeSpec) (files_ : FilesList) :
    ExtractWithAll wx gt extractors tmpdir sourceSpec files_ =
      ConcatCatalogs gt (ExtractWithAll.dispatch wx extractors tmpdir sourceSpec files_).tmpdir
        (ExtractWithAll.dispatch wx extractors tmpdir sourceSpec files_).subPots ∧
    (ExtractWithAll.dispatch wx extractors tmpdir sourceSpec files_).subPots =
      (ExtractWithAll.trace wx sourceSpec extractors ⟨files_, [], tmpdir, []⟩).filterMap
        (fun it => it.subPot.bind fun s => if s.isEmpty then none else some s) ∧
    ((ExtractWithAll.dispatch wx extractors tmpdir sourceSpec files_).subPots = [] →
      (ExtractWithAll wx gt extractors tmpdir sourceSpec files_).ret = []) ∧
    (∀ f, (ExtractWithAll.dispatch wx extractors tmpdir sourceSpec files_).subPots = [f] →
      (ExtractWithAll wx gt extractors tmpdir sourceSpec files_).ret = f) := by
  have heq : ExtractWithAll wx gt extractors tmpdir sourceSpec files_ =
      ConcatCatalogs gt (ExtractWithAll.dispatch wx extractors tmpdir sourceSpec files_).tmpdir
        (ExtractWithAll.dispatch wx extractors tmpdir sourceSpec files_).subPots := by
    unfold ExtractWithAll ConcatCatalogs
    simp only []
    split
    · rfl
    · split
      · rfl
      · rfl
  refine ⟨heq, ?_, ?_, ?_⟩
  · unfold ExtractWithAll.dispatch
    rw [trace_subPots]
    simp
  · intro h
    rw [heq, h]
    simp [ConcatCatalogs]
  · intro f h
    rw [heq, h]
    simp [ConcatCatalogs]

/-- C14: `FilterFiles` returns the files of the input, in input order and as they are
written, whose lowercased form under `__WXMSW__`, or whose own form otherwise, is
accepted by `IsFileSupported`; the result is a sublist of the input, and is sorted when
the input is. -/
theorem FilterFiles_subsequence (wx : Wx) (ex : Extractor) (files : FilesList) :
    ex.FilterFiles wx files =
      files.filter (fun f => ex.IsFileSupported (if wx.WXMSW = true then wx.Lower f else f)) ∧
    (ex.FilterFiles wx files).Sublist files ∧
    (files.Sorted (· ≤ ·) → (ex.FilterFiles wx files).Sorted (· ≤ ·)) := by
  have h : ex.FilterFiles wx files =
      files.filter (fun f => ex.IsFileSupported (if wx.WXMSW = true then wx.Lower f else f)) :=
    FilterFiles_eq_filter wx ex files
  refine ⟨h, ?_, ?_⟩
  · rw [h]; exact List.filter_sublist _
  · intro hs
    rw [h]; exact hs.filter _

theorem trace_sorted (wx : Wx) (sourceSpec : SourceCodeSpec) (exs : List Extractor) :
    ∀ st : Dispatch, st.files.Sorted (· ≤ ·) →
      (∀ it ∈ ExtractWithAll.trace wx sourceSpec exs st, it.files.Sorted (· ≤ ·)) ∧
      (ExtractWithAll.loop wx sourceSpec exs st).files.Sorted (· ≤ ·) := by
  induction exs with
  | nil => intro st hs; simpa [ExtractWithAll.loop, ExtractWithAll.trace] using hs
  | cons ex rest ih =>
    intro st hs
    by_cases h : ex.FilterFiles wx st.files = []
    · rw [(loop_cons_skip wx sourceSpec ex rest st h).1,
        (loop_cons_skip wx sourceSpec ex rest st h).2]
      refine ⟨?_, (ih st hs).2⟩
      intro it hit
      rcases List.mem_cons.mp hit with hit | hit
      · rw [hit]; exact hs
      · exact (ih st hs).1 it hit
    · by_cases hlen : st.files.length > (ex.FilterFiles wx st.files).length
      · rw [(loop_cons_part wx sourceSpec ex rest st h hlen).1,
          (loop_cons_part wx sourceSpec ex rest st h hlen).2]
        have hs' : (set_difference st.files (ex.FilterFiles wx st.files)).Sorted (· ≤ ·) := by
          rw [FilterFiles_eq_filter, set_difference_filter _ _ hs]
          exact hs.filter _
        refine ⟨?_, (ih _ hs').2⟩
        intro it hit
        rcases List.mem_cons.mp hit with hit | hit
        · rw [hit]; exact hs
        · exact (ih _ hs').1 it hit
      · rw [(loop_cons_all wx sourceSpec ex rest st h hlen).1,
          (loop_cons_all wx sourceSpec ex rest st h hlen).2]
        refine ⟨?_, List.sorted_nil⟩
        intro it hit
        rw [List.mem_singleton.mp hit]; exact hs

/-- C17: for a sorted input, the remaining list is sorted at the start of every pass of
the loop of `ExtractWithAll` and when the loop is over. For a sorted list and the list
a backend claims of it, `set_difference` gives a list that is sorted, is a sublist of
the first, and has the length of the first minus the length of the second. -/
theorem ExtractWithAll_remaining_sorted (wx : Wx) (sourceSpec : SourceCodeSpec)
    (extractors : List Extractor) (tmpdir : TempDirectory) (files_ : FilesList)
    (hs : files_.Sorted (· ≤ ·)) :
    (∀ it ∈ ExtractWithAll.trace wx sourceSpec extractors ⟨files_, [], tmpdir, []⟩,
      it.files.Sorted (· ≤ ·)) ∧
    (ExtractWithAll.dispatch wx extractors tmpdir sourceSpec files_).files.Sorted (· ≤ ·) ∧
    (∀ (ex : Extractor) (files : FilesList), files.Sorted (· ≤ ·) →
      (set_difference files (ex.FilterFiles wx files)).Sorted (· ≤ ·) ∧
      (set_difference files (ex.FilterFiles wx files)).Sublist files ∧
      (set_difference files (ex.FilterFiles wx files)).length =
        files.length - (ex.FilterFiles wx files).length) := by
  have h := trace_sorted wx sourceSpec extractors ⟨files_, [], tmpdir, []⟩ hs
  refine ⟨h.1, h.2, ?_⟩
  intro ex files hf
  rw [FilterFiles_eq_filter, set_difference_filter _ _ hf]
  refine ⟨hf.filter _, List.filter_sublist _, ?_⟩
  have hp := (List.filter_append_perm (ex.accepts wx) files).length_eq
  rw [List.length_append] at hp
  omega

/-- The backends for `.c` and `.py` on the sorted input `a.c`, `b.py`, `c.txt`: the
list remaining after the first pass is `b.py`, `c.txt`. -/
theorem ExtractWithAll_remaining_sorted_witness :
    ["a.c".toList, "b.py".toList, "c.txt".toList].Sorted (· ≤ ·) ∧
    (∀ it ∈ ExtractWithAll.trace Scenario.wx ⟨".".toList, [], []⟩
        [Scenario.backendC, Scenario.backendPy]
        ⟨["a.c".toList, "b.py".toList, "c.txt".toList], [], Scenario.tmpdir, []⟩,
      it.files.Sorted (· ≤ ·)) ∧
    (ExtractWithAll.trace Scenario.wx ⟨".".toList, [], []⟩
        [Scenario.backendC, Scenario.backendPy]
        ⟨["a.c".toList, "b.py".toList, "c.txt".toList], [], Scenario.tmpdir, []⟩).map
        (fun it => it.files) =
      [["a.c".toList, "b.py".toList, "c.txt".toList], ["b.py".toList, "c.txt".toList]] :=
  ⟨by decide,
    (ExtractWithAll_remaining_sorted Scenario.wx ⟨".".toList, [], []⟩
      [Scenario.backendC, Scenario.backendPy] Scenario.tmpdir
      ["a.c".toList, "b.py".toList, "c.txt".toList] (by decide)).1,
    by decide⟩

/-- C19: on the unsorted input `b.py`, `a.c` the partition fails. `set_difference`
leaves `a.c` in the remaining list after the first backend was called on it, so the
next backend for `.c` is called on `a.c` again, and `a.c` is among the files left
unrecognized at the end; the lists handed to `Extract` with the files left over are
not a rearrangement of the input. -/
theorem ExtractWithAll_unsorted_input :
    ¬ ["b.py".toList, "a.c".toList].Sorted (· ≤ ·) ∧
    set_difference ["b.py".toList, "a.c".toList] ["a.c".toList] =
      ["b.py".toList, "a.c".toList] ∧
    (ExtractWithAll.dispatch Scenario.wx
        [Scenario.backendC, Scenario.backendC2, Scenario.backendPy] Scenario.tmpdir
        ⟨".".toList, [], []⟩ ["b.py".toList, "a.c".toList]).calls =
      [("c".toList, ["a.c".toList]), ("c2".toList, ["a.c".toList]),
        ("py".toList, ["b.py".toList])] ∧
    (ExtractWithAll.dispatch Scenario.wx
        [Scenario.backendC, Scenario.backendC2, Scenario.backendPy] Scenario.tmpdir
        ⟨".".toList, [], []⟩ ["b.py".toList, "a.c".toList]).files = ["a.c".toList] ∧
    ¬ (ExtractWithAll.dispatch Scenario.wx
        [Scenario.backendC, Scenario.backendC2, Scenario.backendPy] Scenario.tmpdir
        ⟨".".toList, [], []⟩ ["b.py".toList, "a.c".toList]).accounted.Perm
      ["b.py".toList, "a.c".toList] := by
  decide

/-! ## The collector: base path and entries that yield nothing -/

/-- `CollectAllFiles` is left at the assertion only when the assertion stops the
program; in every other build the statements after it run, whatever `BasePath` is. -/
theorem checked_runs (build : Assertions) (wx : Wx) (fs : FileSystem)
    (sources : SourceCodeSpec) (h : build ≠ .trap) :
    (CollectAllFiles.checked build wx fs sources).walk =
      some (CollectAllFiles.walk wx fs sources) ∧
    (CollectAllFiles.checked build wx fs sources).ret = some (CollectAllFiles wx fs sources) := by
  unfold CollectAllFiles.checked
  cases build with
  | trap => exact absurd rfl h
  | resume => cases CollectAllFiles.assertion sources <;> exact ⟨rfl, rfl⟩
  | compiledOut => cases CollectAllFiles.assertion sources <;> exact ⟨rfl, rfl⟩

/-- C15 (the code at the failing input): with the base path `/project` and the search
path `src`, `CollectAllFiles` is stopped before the walk only in a build where the
failed assertion traps. Where assertions are compiled out nothing is reported, the
directory `src` is opened and its three files are returned; where the handler lets
execution go on the message is reported and the same walk and result follow. -/
theorem CollectAllFiles_other_BasePath :
    ((CollectAllFiles.checked .compiledOut Scenario.wx Scenario.srcTree
          ⟨"/project".toList, ["src".toList], []⟩).raised = none ∧
      (CollectAllFiles.checked .compiledOut Scenario.wx Scenario.srcTree
          ⟨"/project".toList, ["src".toList], []⟩).walk.map (fun w => w.opened) =
        some ["src".toList] ∧
      (CollectAllFiles.checked .compiledOut Scenario.wx Scenario.srcTree
          ⟨"/project".toList, ["src".toList], []⟩).ret =
        some ["src/a.c".toList, "src/b.c".toList, "src/c.c".toList]) ∧
    ((CollectAllFiles.checked .resume Scenario.wx Scenario.srcTree
          ⟨"/project".toList, ["src".toList], []⟩).raised =
        some "basepath handling not implemented yet".toList ∧
      (CollectAllFiles.checked .resume Scenario.wx Scenario.srcTree
          ⟨"/project".toList, ["src".toList], []⟩).walk.map (fun w => w.opened) =
        some ["src".toList] ∧
      (CollectAllFiles.checked .resume Scenario.wx Scenario.srcTree
          ⟨"/project".toList, ["src".toList], []⟩).ret =
        some ["src/a.c".toList, "src/b.c".toList, "src/c.c".toList]) ∧
    ((CollectAllFiles.checked .trap Scenario.wx Scenario.srcTree
          ⟨"/project".toList, ["src".toList], []⟩).raised =
        some "basepath handling not implemented yet".toList ∧
      (CollectAllFiles.checked .trap Scenario.wx Scenario.srcTree
          ⟨"/project".toList, ["src".toList], []⟩).walk.map (fun w => w.opened) = none ∧
      (CollectAllFiles.checked .trap Scenario.wx Scenario.srcTree
          ⟨"/project".toList, ["src".toList], []⟩).ret = none) := by
  decide

/-- A search-path entry that is no existing file and whose directory cannot be opened,
or that is the empty string, contributes nothing. -/
theorem FindInDir_nothing (wx : Wx) (ex : PathsToMatch) (fs : FileSystem) (p : wxString)
    (hdir : p = [] ∨ fs.dir p = .closed) :
    (FindInDir wx p ex (fs.dir p) ⟨[], [], []⟩).2.output = [] := by
  by_cases hp : p = []
  · subst hp; simp [FindInDir_empty]
  · rcases hdir with h | h
    · exact absurd h hp
    · rw [h, FindInDir_closed _ _ _ _ hp]

/-- C16: a search-path entry that does not name an existing file and whose directory
cannot be opened, or that is the empty string, adds no file and does not stop the
collection: `CollectAllFiles` returns the list it returns for the search paths without
this entry. -/
theorem CollectAllFiles_unreadable_entry (wx : Wx) (fs : FileSystem) (base : wxString)
    (before after excluded : List wxString) (p : wxString)
    (hfile : fs.FileExists p = false) (hdir : p = [] ∨ fs.dir p = .closed) :
    CollectAllFiles wx fs ⟨base, before ++ p :: after, excluded⟩ =
      CollectAllFiles wx fs ⟨base, before ++ after, excluded⟩ := by
  unfold CollectAllFiles CollectAllFiles.walk
  rw [collect_loop_output, collect_loop_output]
  simp [hfile, FindInDir_nothing wx _ fs p hdir]

/-- The entries `missing`, which cannot be opened, and the empty string, next to the
directory `src`. -/
theorem CollectAllFiles_unreadable_entry_witness :
    Scenario.srcTree.FileExists "missing".toList = false ∧
    ("missing".toList = [] ∨ Scenario.srcTree.dir "missing".toList = .closed) ∧
    CollectAllFiles Scenario.wx Scenario.srcTree
        ⟨".".toList, [] ++ "missing".toList :: ["src".toList], []⟩ =
      CollectAllFiles Scenario.wx Scenario.srcTree ⟨".".toList, [] ++ ["src".toList], []⟩ ∧
    CollectAllFiles Scenario.wx Scenario.srcTree
        ⟨".".toList, ["src".toList] ++ [] :: [], []⟩ =
      CollectAllFiles Scenario.wx Scenario.srcTree ⟨".".toList, ["src".toList] ++ [], []⟩ :=
  ⟨by decide, Or.inr rfl,
    CollectAllFiles_unreadable_entry Scenario.wx Scenario.srcTree ".".toList []
      ["src".toList] [] "missing".toList (by decide) (Or.inr rfl),
    CollectAllFiles_unreadable_entry Scenario.wx Scenario.srcTree ".".toList ["src".toList]
      [] [] [] (by decide) (Or.inl rfl)⟩

/-! ## The paths composed during the walk -/

theorem childPath_ne_dot (g c : wxString) (hg : g ≠ ".".toList) :
    childPath g c = g ++ "/".toList ++ c ∧ childPath g c ≠ ".".toList ∧ childPath g c ≠ [] := by
  have h : childPath g c = g ++ "/".toList ++ c := by
    unfold childPath; rw [if_neg hg]
  refine ⟨h, ?_, ?_⟩
  · rw [h]
    cases g with
    | nil => simp
    | cons a as => cases as <;> simp
  · rw [h]; simp

/-- Below a directory name other than `.` every step appends `/` and the component. -/
theorem foldl_childPath (cs : List wxString) :
    ∀ g : wxString, g ≠ ".".toList →
      cs.foldl childPath g = g ++ (cs.map fun c => "/".toList ++ c).flatten := by
  induction cs with
  | nil => intro g _; simp
  | cons c rest ih =>
    intro g hg
    have h := childPath_ne_dot g c hg
    rw [List.foldl_cons, ih _ h.2.1, h.1]
    simp

theorem slashJoin_cons (c : wxString) (rest : List wxString) :
    slashJoin (c :: rest) = c ++ (rest.map fun x => "/".toList ++ x).flatten := by
  induction rest generalizing c with
  | nil => simp [slashJoin]
  | cons r rest ih =>
    rw [slashJoin]
    · rw [ih r]
      simp
    · simp

/-- The name composed step by step by `FindInDir` is the path of the specification,
provided that under the root `.` the first component is not `.` itself. -/
theorem foldl_childPath_eq_composedPath (d c : wxString) (rest : List wxString)
    (hdot : d = ".".toList → rest ≠ [] → c ≠ ".".toList) :
    (c :: rest).foldl childPath d = composedPath d (c :: rest) := by
  unfold composedPath
  by_cases hd : d = ".".toList
  · rw [if_pos hd, List.foldl_cons]
    have hc : childPath d c = c := by unfold childPath; rw [if_pos hd]
    rw [hc, slashJoin_cons]
    cases rest with
    | nil => simp
    | cons r rest' =>
      exact foldl_childPath _ c (hdot hd (by simp))
  · rw [if_neg hd, foldl_childPath _ d hd, slashJoin_cons]
    simp

theorem dirsLoop_output_mem (wx : Wx) (ex : PathsToMatch) (c : wxString) (sub : Dir) :
    ∀ (ds : Entries) (dirname : wxString), (c, sub) ∈ ds.toList →
      ex.MatchesFile wx (childPath dirname c) = false →
      ∀ x ∈ (FindInDir wx (childPath dirname c) ex sub ⟨[], [], []⟩).2.output,
        x ∈ (FindInDir.dirsLoop wx dirname ex ds 0 ⟨[], [], []⟩).2.output
  | .nil, dirname, hmem, _ => by simp [Entries.toList] at hmem
  | .cons filename s rest, dirname, hmem, hex => by
    intro x hx
    rw [dirsLoop_cons_output]
    rw [Entries.toList] at hmem
    rcases List.mem_cons.mp hmem with heq | hmem'
    · have h1 : c = filename := (Prod.mk.inj heq).1
      have h2 : sub = s := (Prod.mk.inj heq).2
      subst h1; subst h2
      rw [hex]
      exact List.mem_append_left _ (by simpa using hx)
    · exact List.mem_append_right _ (dirsLoop_output_mem wx ex c sub rest dirname hmem' hex x hx)

/-- A file of the tree whose directories on the way are entered is appended under the
name composed step by step, when that name is not excluded. -/
theorem FindInDir_reaches (wx : Wx) (ex : PathsToMatch) {root : Dir} {cs : List wxString}
    {f : wxString} (h : root.HasFile cs f) :
    ∀ d : wxString, d ≠ [] →
      (∀ pre : List wxString, pre <+: cs → pre ≠ [] →
        pre.foldl childPath d ≠ [] ∧ ex.MatchesFile wx (pre.foldl childPath d) = false) →
      ex.MatchesFile wx (childPath (cs.foldl childPath d) f) = false →
      childPath (cs.foldl childPath d) f ∈ (FindInDir wx d ex root ⟨[], [], []⟩).2.output := by
  induction h with
  | here hf =>
    intro d hd _ hex
    rw [FindInDir_opened_output _ _ _ _ _ hd]
    refine List.mem_append_left _ (List.mem_filter.mpr ⟨List.mem_map_of_mem _ hf, ?_⟩)
    simpa using hex
  | @inside files dirs c sub cs f hmem _ ih =>
    intro d hd hpre hex
    rw [FindInDir_opened_output _ _ _ _ _ hd]
    have hc := hpre [c] (by simp) (by simp)
    simp only [List.foldl_cons, List.foldl_nil] at hc
    refine List.mem_append_right _ (dirsLoop_output_mem wx ex c sub dirs d hmem hc.2 _ ?_)
    rw [List.foldl_cons] at hex ⊢
    refine ih (childPath d c) hc.1 ?_ hex
    intro pre hp hne
    have := hpre (c :: pre) ((List.prefix_cons_inj c).mpr hp) (by simp)
    simpa using this

/-- C18: for a search root `d` and a file of its tree reached through the
subdirectories `c1, ..., cn` under the name `f`, every directory on the way being
entered, the path appended is `c1/.../cn/f` when `d` is `.` and `d/c1/.../cn/f`
otherwise, with `d` as it was given; this same string is the one tested against the
exclusion patterns, so the path is appended exactly when no pattern matches it. The
directories on the way are entered when no pattern matches their paths, composed the
same way. (Under the root `.` the first subdirectory is named neither `.` nor by the
empty string, names that `wxDir` does not yield.) -/
theorem FindInDir_composed_path (wx : Wx) (ex : PathsToMatch) (d : wxString) (root : Dir)
    (cs : List wxString) (f : wxString)
    (hd : d ≠ [])
    (hfile : root.HasFile cs f)
    (hnames : d = ".".toList → ∀ c rest, cs = c :: rest → c ≠ [] ∧ c ≠ ".".toList)
    (hdirs : ∀ pre : List wxString, pre <+: cs → pre ≠ [] →
      ex.MatchesFile wx (composedPath d pre) = false) :
    (composedPath d (cs ++ [f]) ∈ (FindInDir wx d ex root ⟨[], [], []⟩).2.output ↔
      ex.MatchesFile wx (composedPath d (cs ++ [f])) = false) ∧
    composedPath d (cs ++ [f]) =
      (if d = ".".toList then slashJoin (cs ++ [f])
        else d ++ "/".toList ++ slashJoin (cs ++ [f])) := by
  refine ⟨?_, rfl⟩
  -- the names composed step by step are the composed paths
  have hcomp : ∀ (c : wxString) (rest : List wxString), (c :: rest) <+: cs ++ [f] →
      (c :: rest).foldl childPath d = composedPath d (c :: rest) := by
    intro c rest hp
    refine foldl_childPath_eq_composedPath d c rest ?_
    intro hdd hrest
    cases cs with
    | nil =>
      have hl := hp.length_le
      cases rest with
      | nil => exact absurd rfl hrest
      | cons _ _ => simp at hl
    | cons c' cs' =>
      have hc : c = c' := by
        rcases hp with ⟨t, ht⟩
        simpa using (List.cons.inj ht).1
      rw [hc]
      exact (hnames hdd c' cs' rfl).2
  have hfull : childPath (cs.foldl childPath d) f = composedPath d (cs ++ [f]) := by
    have : (cs ++ [f]).foldl childPath d = childPath (cs.foldl childPath d) f := by
      simp [List.foldl_append]
    rw [← this]
    cases hcs : cs ++ [f] with
    | nil => simp at hcs
    | cons c rest => exact hcomp c rest (by rw [hcs])
  constructor
  · intro hmem
    exact FindInDir_output_kept wx ex root d _ hmem
  · intro hex
    rw [← hfull] at hex ⊢
    refine FindInDir_reaches wx ex hfile d hd ?_ hex
    intro pre hp hne
    cases pre with
    | nil => exact absurd rfl hne
    | cons c rest =>
      have hpf : (c :: rest) <+: cs ++ [f] := hp.trans (List.prefix_append _ _)
      rw [hcomp c rest hpf]
      refine ⟨?_, hdirs _ hp hne⟩
      unfold composedPath
      by_cases hdd : d = ".".toList
      · rw [if_pos hdd, slashJoin_cons]
        cases cs with
        | nil => simp at hp
        | cons c' cs' =>
          have hc : c = c' := by
            rcases hp with ⟨t, ht⟩
            simpa using (List.cons.inj ht).1
          have := (hnames hdd c' cs' rfl).1
          rw [hc]
          simp [this]
      · rw [if_neg hdd]; simp

theorem project_has_io : Scenario.project.HasFile ["lib".toList, "core".toList] "io.c".toList :=
  Dir.HasFile.inside (List.mem_cons_self _ _)
    (Dir.HasFile.inside (List.mem_cons_self _ _) (Dir.HasFile.here (List.mem_cons_self _ _)))

/-- The file `io.c` of the directory `lib/core`, from the roots `.` and `proj`, with the
exclusion `lib/util.c`. -/
theorem FindInDir_composed_path_witness :
    Scenario.project.HasFile ["lib".toList, "core".toList] "io.c".toList ∧
    "lib/core/io.c".toList ∈
      (FindInDir Scenario.wx ".".toList (PathsToMatch.ofArray Scenario.wx ["lib/util.c".toList])
        Scenario.project ⟨[], [], []⟩).2.output ∧
    "proj/lib/core/io.c".toList ∈
      (FindInDir Scenario.wx "proj".toList
        (PathsToMatch.ofArray Scenario.wx ["lib/util.c".toList])
        Scenario.project ⟨[], [], []⟩).2.output := by
  have hdot : ∀ pre ∈ ["lib".toList, "core".toList].inits, pre ≠ [] →
      (PathsToMatch.ofArray Scenario.wx ["lib/util.c".toList]).MatchesFile Scenario.wx
        (composedPath ".".toList pre) = false := by decide
  have hproj : ∀ pre ∈ ["lib".toList, "core".toList].inits, pre ≠ [] →
      (PathsToMatch.ofArray Scenario.wx ["lib/util.c".toList]).MatchesFile Scenario.wx
        (composedPath "proj".toList pre) = false := by decide
  have h1 := FindInDir_composed_path Scenario.wx
    (PathsToMatch.ofArray Scenario.wx ["lib/util.c".toList]) ".".toList Scenario.project
    ["lib".toList, "core".toList] "io.c".toList (by decide) project_has_io
    (by
      intro _ c rest hcs
      have hc : c = "lib".toList := by
        have := (List.cons.inj hcs).1
        exact this.symm
      rw [hc]
      decide)
    (fun pre hp hne => hdot pre ((List.mem_inits _ _).mpr hp) hne)
  have h2 := FindInDir_composed_path Scenario.wx
    (PathsToMatch.ofArray Scenario.wx ["lib/util.c".toList]) "proj".toList Scenario.project
    ["lib".toList, "core".toList] "io.c".toList (by decide) project_has_io
    (fun hd => absurd hd (by decide))
    (fun pre hp hne => hproj pre ((List.mem_inits _ _).mpr hp) hne)
  exact ⟨project_has_io, h1.1.mpr (by decide), h2.1.mpr (by decide)⟩

/-! ## Pruning -/

theorem MatchesFile_none (wx : Wx) (p : wxString) :
    (PathsToMatch.mk []).MatchesFile wx p = false := by
  simp [PathsToMatch.MatchesFile, PathsToMatch.matchLoop]

mutual
theorem FindInDir_found_eq_length (wx : Wx) (ex : PathsToMatch) :
    ∀ (d : Dir) (dirname : wxString),
      (FindInDir wx dirname ex d ⟨[], [], []⟩).1 =
        (FindInDir wx dirname ex d ⟨[], [], []⟩).2.output.length
  | .closed, dirname => by
    by_cases h : dirname = []
    · subst h; simp [FindInDir_empty]
    · simp [FindInDir_closed, h]
  | .opened files dirs, dirname => by
    by_cases h : dirname = []
    · subst h; simp [FindInDir_empty]
    · rw [FindInDir_opened_found _ _ _ _ _ h, FindInDir_opened_output _ _ _ _ _ h,
        dirsLoop_found_eq_length wx ex dirs dirname, List.length_append]
theorem dirsLoop_found_eq_length (wx : Wx) (ex : PathsToMatch) :
    ∀ (ds : Entries) (dirname : wxString),
      (FindInDir.dirsLoop wx dirname ex ds 0 ⟨[], [], []⟩).1 =
        (FindInDir.dirsLoop wx dirname ex ds 0 ⟨[], [], []⟩).2.output.length
  | .nil, dirname => by simp [FindInDir.dirsLoop]
  | .cons filename sub rest, dirname => by
    rw [dirsLoop_cons_found, dirsLoop_cons_output, List.length_append,
      dirsLoop_found_eq_length wx ex rest dirname]
    split
    · simp
    · rw [FindInDir_found_eq_length wx ex sub _]
end

mutual
theorem FindInDir_output_below (wx : Wx) (ex : PathsToMatch) :
    ∀ (d : Dir) (g : wxString), g ≠ ".".toList →
      ∀ p ∈ (FindInDir wx g ex d ⟨[], [], []⟩).2.output, (g ++ "/".toList) <+: p
  | .closed, g, _ => by
    by_cases h : g = []
    · subst h; simp [FindInDir_empty]
    · simp [FindInDir_closed, h]
  | .opened files dirs, g, hg => by
    by_cases h : g = []
    · subst h; simp [FindInDir_empty]
    · rw [FindInDir_opened_output _ _ _ _ _ h]
      intro p hp
      rcases List.mem_append.mp hp with hp | hp
      · rcases List.mem_map.mp (List.mem_filter.mp hp).1 with ⟨f, _, hf⟩
        rw [← hf, (childPath_ne_dot g f hg).1]
        exact List.prefix_append _ _
      · exact dirsLoop_output_below wx ex dirs g hg p hp
theorem dirsLoop_output_below (wx : Wx) (ex : PathsToMatch) :
    ∀ (ds : Entries) (g : wxString), g ≠ ".".toList →
      ∀ p ∈ (FindInDir.dirsLoop wx g ex ds 0 ⟨[], [], []⟩).2.output, (g ++ "/".toList) <+: p
  | .nil, g, _ => by simp [FindInDir.dirsLoop]
  | .cons filename sub rest, g, hg => by
    rw [dirsLoop_cons_output]
    intro p hp
    rcases List.mem_append.mp hp with hp | hp
    · split at hp
      · simp at hp
      · have hc := childPath_ne_dot g filename hg
        have := FindInDir_output_below wx ex sub _ hc.2.1 p hp
        rw [hc.1] at this
        refine List.IsPrefix.trans ?_ this
        exact ⟨filename ++ "/".toList, by simp⟩
    · exact dirsLoop_output_below wx ex rest g hg p hp
end

/-- Non-wildcard patterns that match a directory match every path below it. -/
theorem excluded_below (wx : Wx) (list : List wxString)
    (hplain : ∀ e ∈ list, wx.wxIsWild e = false) (g p : wxString)
    (hg : (PathsToMatch.ofArray wx list).MatchesFile wx g = true)
    (hp : (g ++ "/".toList) <+: p) :
    (PathsToMatch.ofArray wx list).MatchesFile wx p = true := by
  rw [MatchesFile_ofArray_iff] at hg ⊢
  rcases hg with ⟨e, he, hm⟩
  refine ⟨e, he, ?_⟩
  rw [hplain e he, PathToMatch_MatchesFile_plain] at hm ⊢
  rcases hm with h | h
  · rw [← h]; exact Or.inr hp
  · exact Or.inr ((h.trans (List.prefix_append _ _)).trans hp)

theorem childPath_noDot (dirname filename : wxString) (h : filename ≠ ".".toList) :
    childPath dirname filename ≠ ".".toList := by
  by_cases hd : dirname = ".".toList
  · unfold childPath; rw [if_pos hd]; exact h
  · exact (childPath_ne_dot dirname filename hd).2.1

mutual
theorem FindInDir_pruned (wx : Wx) (list : List wxString)
    (hplain : ∀ e ∈ list, wx.wxIsWild e = false) :
    ∀ (d : Dir) (dirname : wxString), d.noDot = true →
      (FindInDir wx dirname (PathsToMatch.ofArray wx list) d ⟨[], [], []⟩).2.output =
        (FindInDir wx dirname ⟨[]⟩ d ⟨[], [], []⟩).2.output.filter
          (fun p => !(PathsToMatch.ofArray wx list).MatchesFile wx p)
  | .closed, dirname, _ => by
    by_cases h : dirname = []
    · subst h; simp [FindInDir_empty]
    · simp [FindInDir_closed, h]
  | .opened files dirs, dirname, hd => by
    by_cases h : dirname = []
    · subst h; simp [FindInDir_empty]
    · rw [FindInDir_opened_output _ _ _ _ _ h, FindInDir_opened_output _ _ _ _ _ h,
        List.filter_append, dirsLoop_pruned wx list hplain dirs dirname (by simpa [Dir.noDot] using hd)]
      simp [MatchesFile_none]
theorem dirsLoop_pruned (wx : Wx) (list : List wxString)
    (hplain : ∀ e ∈ list, wx.wxIsWild e = false) :
    ∀ (ds : Entries) (dirname : wxString), ds.noDot = true →
      (FindInDir.dirsLoop wx dirname (PathsToMatch.ofArray wx list) ds 0 ⟨[], [], []⟩).2.output =
        (FindInDir.dirsLoop wx dirname ⟨[]⟩ ds 0 ⟨[], [], []⟩).2.output.filter
          (fun p => !(PathsToMatch.ofArray wx list).MatchesFile wx p)
  | .nil, dirname, _ => by simp [FindInDir.dirsLoop]
  | .cons filename sub rest, dirname, hd => by
    have hd' : filename ≠ ".".toList ∧ sub.noDot = true ∧ rest.noDot = true := by
      simpa [Entries.noDot, and_assoc] using hd
    rw [dirsLoop_cons_output, dirsLoop_cons_output, MatchesFile_none, List.filter_append,
      dirsLoop_pruned wx list hplain rest dirname hd'.2.2]
    congr 1
    simp only [Bool.false_eq_true, if_false]
    split
    · rename_i hex
      symm
      rw [List.filter_eq_nil_iff]
      intro p hp
      have hb := FindInDir_output_below wx ⟨[]⟩ sub _ (childPath_noDot dirname filename hd'.1) p hp
      simp [excluded_below wx list hplain _ p hex hb]
    · exact FindInDir_pruned wx list hplain sub _ hd'.2.1
end

/-! ## The walk against the files of the tree -/

mutual
theorem FindInDir_unpruned (wx : Wx) :
    ∀ (d : Dir) (g : wxString), g ≠ [] → d.noEmptyName = true →
      (FindInDir wx g ⟨[]⟩ d ⟨[], [], []⟩).2.output =
        d.allFiles.map (fun comps => comps.foldl childPath g)
  | .closed, g, hg, _ => by
    simp [FindInDir_closed, hg, Dir.allFiles]
  | .opened files dirs, g, hg, hn => by
    rw [FindInDir_opened_output _ _ _ _ _ hg, Dir.allFiles,
      dirsLoop_unpruned wx dirs g (by simpa [Dir.noEmptyName] using hn)]
    simp [MatchesFile_none, Function.comp_def]
theorem dirsLoop_unpruned (wx : Wx) :
    ∀ (ds : Entries) (g : wxString), ds.noEmptyName = true →
      (FindInDir.dirsLoop wx g ⟨[]⟩ ds 0 ⟨[], [], []⟩).2.output =
        ds.allFiles.map (fun comps => comps.foldl childPath g)
  | .nil, g, _ => by simp [FindInDir.dirsLoop, Entries.allFiles]
  | .cons filename sub rest, g, hn => by
    have hn' : filename ≠ [] ∧ sub.noEmptyName = true ∧ rest.noEmptyName = true := by
      simpa [Entries.noEmptyName, and_assoc] using hn
    have hg' : childPath g filename ≠ [] := by
      unfold childPath
      split
      · exact hn'.1
      · simp
    rw [dirsLoop_cons_output, MatchesFile_none, Entries.allFiles,
      dirsLoop_unpruned wx rest g hn'.2.2]
    simp only [Bool.false_eq_true, if_false]
    rw [FindInDir_unpruned wx sub _ hg' hn'.2.1]
    simp [Function.comp_def]
end

mutual
theorem allFiles_shape :
    ∀ (d : Dir), d.noDot = true → ∀ comps ∈ d.allFiles,
      ∃ c rest, comps = c :: rest ∧ (rest ≠ [] → c ≠ ".".toList)
  | .closed, _ => by simp [Dir.allFiles]
  | .opened files dirs, hn => by
    intro comps hc
    rw [Dir.allFiles] at hc
    rcases List.mem_append.mp hc with hc | hc
    · rcases List.mem_map.mp hc with ⟨f, _, hf⟩
      exact ⟨f, [], hf.symm, fun h => absurd rfl h⟩
    · exact entries_allFiles_shape dirs (by simpa [Dir.noDot] using hn) comps hc
theorem entries_allFiles_shape :
    ∀ (ds : Entries), ds.noDot = true → ∀ comps ∈ ds.allFiles,
      ∃ c rest, comps = c :: rest ∧ (rest ≠ [] → c ≠ ".".toList)
  | .nil, _ => by simp [Entries.allFiles]
  | .cons filename sub rest, hn => by
    have hn' : filename ≠ ".".toList ∧ sub.noDot = true ∧ rest.noDot = true := by
      simpa [Entries.noDot, and_assoc] using hn
    intro comps hc
    rw [Entries.allFiles] at hc
    rcases List.mem_append.mp hc with hc | hc
    · rcases List.mem_map.mp hc with ⟨cs, _, hcs⟩
      exact ⟨filename, cs, hcs.symm, fun _ => hn'.1⟩
    · exact entries_allFiles_shape rest hn'.2.2 comps hc
end

/-- Without exclusions the walk collects the files of the whole tree, each under its
composed path, in the order of the listings. -/
theorem FindInDir_unpruned_eq (wx : Wx) (d : Dir) (dirname : wxString)
    (hd : dirname ≠ []) (hn : d.properNames = true) :
    (FindInDir wx dirname ⟨[]⟩ d ⟨[], [], []⟩).2.output =
      d.allFiles.map (composedPath dirname) := by
  have hn' : d.noDot = true ∧ d.noEmptyName = true := by
    simpa [Dir.properNames] using hn
  rw [FindInDir_unpruned wx d dirname hd hn'.2]
  refine List.map_congr_left ?_
  intro comps hc
  rcases allFiles_shape d hn'.1 comps hc with ⟨c, rest, heq, hdot⟩
  rw [heq]
  exact foldl_childPath_eq_composedPath dirname c rest (fun _ h => hdot h)

theorem entries_allFiles_mem (c : wxString) (sub : Dir) (x : List wxString) :
    ∀ ds : Entries, (c, sub) ∈ ds.toList → x ∈ sub.allFiles → c :: x ∈ ds.allFiles
  | .nil, hmem, _ => by simp [Entries.toList] at hmem
  | .cons filename s rest, hmem, hx => by
    rw [Entries.toList] at hmem
    rw [Entries.allFiles]
    rcases List.mem_cons.mp hmem with heq | hmem'
    · have h1 : c = filename := (Prod.mk.inj heq).1
      have h2 : sub = s := (Prod.mk.inj heq).2
      subst h1; subst h2
      exact List.mem_append_left _ (List.mem_map.mpr ⟨x, hx, rfl⟩)
    · exact List.mem_append_right _ (entries_allFiles_mem c sub x rest hmem' hx)

mutual
theorem allFiles_hasFile :
    ∀ (d : Dir), ∀ comps ∈ d.allFiles, ∃ cs f, comps = cs ++ [f] ∧ d.HasFile cs f
  | .closed => by simp [Dir.allFiles]
  | .opened files dirs => by
    intro comps hc
    rw [Dir.allFiles] at hc
    rcases List.mem_append.mp hc with hc | hc
    · rcases List.mem_map.mp hc with ⟨f, hf, hcf⟩
      exact ⟨[], f, by simpa using hcf.symm, Dir.HasFile.here hf⟩
    · rcases entries_allFiles_hasFile dirs comps hc with ⟨c, sub, cs, f, hmem, heq, hh⟩
      exact ⟨c :: cs, f, by simpa using heq, Dir.HasFile.inside hmem hh⟩
theorem entries_allFiles_hasFile :
    ∀ (ds : Entries), ∀ comps ∈ ds.allFiles,
      ∃ c sub cs f, (c, sub) ∈ ds.toList ∧ comps = c :: (cs ++ [f]) ∧ sub.HasFile cs f
  | .nil => by simp [Entries.allFiles]
  | .cons filename s rest => by
    intro comps hc
    rw [Entries.allFiles] at hc
    rcases List.mem_append.mp hc with hc | hc
    · rcases List.mem_map.mp hc with ⟨x, hx, hxc⟩
      rcases allFiles_hasFile s x hx with ⟨cs, f, heq, hh⟩
      refine ⟨filename, s, cs, f, ?_, ?_, hh⟩
      · rw [Entries.toList]; exact List.mem_cons_self _ _
      · rw [← hxc, heq]
    · rcases entries_allFiles_hasFile rest comps hc with ⟨c, sub, cs, f, hmem, heq, hh⟩
      refine ⟨c, sub, cs, f, ?_, heq, hh⟩
      rw [Entries.toList]; exact List.mem_cons_of_mem _ hmem
end

/-- The list `allFiles` holds exactly the files of the tree: the component lists
`c1, ..., cn, f` for which going down through `c1, ..., cn` leads to a listing with the
file `f`. -/
theorem mem_allFiles_iff (d : Dir) (comps : List wxString) :
    comps ∈ d.allFiles ↔ ∃ cs f, comps = cs ++ [f] ∧ d.HasFile cs f := by
  constructor
  · exact allFiles_hasFile d comps
  · rintro ⟨cs, f, heq, hh⟩
    rw [heq]
    clear heq
    induction hh with
    | here hf =>
      rw [Dir.allFiles]
      exact List.mem_append_left _ (List.mem_map.mpr ⟨_, hf, rfl⟩)
    | inside hmem _ ih =>
      rw [Dir.allFiles]
      exact List.mem_append_right _ (entries_allFiles_mem _ _ _ _ hmem ih)

/-- C20: when no exclusion pattern is a wildcard, `FindInDir` on a directory tree and a
root leaves the entries already in the output as they are and appends exactly the
files of the whole tree whose composed path no exclusion pattern matches, each as
often as the tree lists it and in the order of the listings; the count returned is the
number of paths appended. (The root is not the empty string and no subdirectory of the
tree is named `.` or by the empty string, names `wxDir` does not yield.) -/
theorem FindInDir_pruning (wx : Wx) (list : List wxString) (dirname : wxString) (d : Dir)
    (w : Walk) (hplain : ∀ e ∈ list, wx.wxIsWild e = false) (hd : dirname ≠ [])
    (hnames : d.properNames = true) :
    (FindInDir wx dirname (PathsToMatch.ofArray wx list) d w).2.output =
      w.output ++ (d.allFiles.map (composedPath dirname)).filter
        (fun p => !(PathsToMatch.ofArray wx list).MatchesFile wx p) ∧
    (FindInDir wx dirname (PathsToMatch.ofArray wx list) d w).1 =
      ((d.allFiles.map (composedPath dirname)).filter
        (fun p => !(PathsToMatch.ofArray wx list).MatchesFile wx p)).length ∧
    ((FindInDir wx dirname (PathsToMatch.ofArray wx list) d w).2.output.drop
        w.output.length).Perm
      ((d.allFiles.map (composedPath dirname)).filter
        (fun p => !(PathsToMatch.ofArray wx list).MatchesFile wx p)) ∧
    (∀ p : wxString,
      p ∈ (FindInDir wx dirname (PathsToMatch.ofArray wx list) d w).2.output.drop
          w.output.length ↔
        ∃ cs f, d.HasFile cs f ∧ p = composedPath dirname (cs ++ [f]) ∧
          (PathsToMatch.ofArray wx list).MatchesFile wx p = false) := by
  have hn' : d.noDot = true ∧ d.noEmptyName = true := by
    simpa [Dir.properNames] using hnames
  have hp := FindInDir_pruned wx list hplain d dirname hn'.1
  rw [FindInDir_unpruned_eq wx d dirname hd hnames] at hp
  have hf := FindInDir_frame wx (PathsToMatch.ofArray wx list) d dirname w
  have hc := FindInDir_found_eq_length wx (PathsToMatch.ofArray wx list) d dirname
  rw [hf]
  simp only []
  rw [hc, hp, List.drop_left]
  refine ⟨rfl, rfl, List.Perm.refl _, ?_⟩
  intro p
  rw [List.mem_filter, List.mem_map]
  constructor
  · rintro ⟨⟨comps, hcomps, hpath⟩, hex⟩
    rcases (mem_allFiles_iff d comps).mp hcomps with ⟨cs, f, heq, hh⟩
    exact ⟨cs, f, hh, by rw [← hpath, heq], by simpa using hex⟩
  · rintro ⟨cs, f, hh, hpath, hex⟩
    exact ⟨⟨cs ++ [f], (mem_allFiles_iff d _).mpr ⟨cs, f, rfl, hh⟩, hpath.symm⟩,
      by simpa using hex⟩

/-- The tree of `main.c`, `lib/util.c` and `lib/core/io.c` walked from `.` with the
exclusion `lib/core`: the directory is pruned and `io.c` is not appended. -/
theorem FindInDir_pruning_witness :
    (∀ e ∈ ["lib/core".toList], Scenario.wx.wxIsWild e = false) ∧
    ".".toList ≠ [] ∧
    Scenario.project.properNames = true ∧
    Scenario.project.allFiles =
      [["main.c".toList], ["lib".toList, "util.c".toList],
        ["lib".toList, "core".toList, "io.c".toList]] ∧
    (FindInDir Scenario.wx ".".toList (PathsToMatch.ofArray Scenario.wx ["lib/core".toList])
        Scenario.project ⟨["x".toList], [], []⟩).2.output =
      ["x".toList, "main.c".toList, "lib/util.c".toList] ∧
    (FindInDir Scenario.wx ".".toList (PathsToMatch.ofArray Scenario.wx ["lib/core".toList])
        Scenario.project ⟨["x".toList], [], []⟩).1 = 2 := by
  have h := FindInDir_pruning Scenario.wx ["lib/core".toList] ".".toList Scenario.project
    ⟨["x".toList], [], []⟩ (by decide) (by decide) (by decide)
  exact ⟨by decide, by decide, by decide, by decide, h.1, h.2.1⟩

end Poedit
